import Mathlib

/-!
Verification of the AutoArchive scripts repository.

This file gives a shallow embedding of the repository's data model and the
operations the specification talks about:

* `src/config/hierarchy/detect_entry.py` — per-directory `config.yml`
  detection and merging (`EntryDetector.detect_directory`,
  `EntryDetector.merge_configs`);
* `src/toc/utils.py` — `natural_sort_key`;
* `src/toc/content_processors.py` — `FilesProcessor.process` and
  `DirectoryProcessor.process`;
* `src/config/catalog.py` and `src/config/get_md5_list.py` — catalog and
  MD5-list generation.

Python dictionaries are modelled as association lists (`List (α × β)`) with
insertion-order semantics: assigning to an existing key updates it in place,
assigning a fresh key appends it.  Python truthiness of YAML values is
modelled by `PyVal.truthy`.  File-system access and YAML parsing are
abstracted into explicit inputs.
-/

set_option autoImplicit false

set_option linter.unusedSectionVars false

set_option linter.unusedVariables false

universe u v

/-- Values occurring in the repository's `config.yml` fields: strings,
integers, YAML null and string lists (the `tags` field).  Python truthiness
(`if old_file[key]:`) is decided by `PyVal.truthy`. -/
inductive PyVal where
  | none
  | str (s : String)
  | int (n : Int)
  | list (l : List String)
deriving DecidableEq, Repr

/-- Python truthiness for the modelled values: `None`, `''`, `0` and `[]`
are falsy, everything else is truthy. -/
def PyVal.truthy : PyVal → Bool
  | .none => false
  | .str s => decide (s ≠ "")
  | .int n => decide (n ≠ 0)
  | .list l => decide (l ≠ [])

instance {ε : Type u} {α : Type v} [DecidableEq ε] [DecidableEq α] :
    DecidableEq (Except ε α) := fun a b =>
  match a, b with
  | Except.ok x, Except.ok y =>
      if h : x = y then isTrue (by rw [h])
      else isFalse (fun hc => h (Except.ok.inj hc))
  | Except.error x, Except.error y =>
      if h : x = y then isTrue (by rw [h])
      else isFalse (fun hc => h (Except.error.inj hc))
  | Except.ok _, Except.error _ => isFalse (fun hc => Except.noConfusion hc)
  | Except.error _, Except.ok _ => isFalse (fun hc => Except.noConfusion hc)

namespace PyDict

variable {α : Type u} {β : Type v} [DecidableEq α]

/-- The keys of a Python dict, in insertion order. -/
def keys (d : List (α × β)) : List α := d.map Prod.fst

/-- `d[k]` as a partial lookup: the first binding of `k` (in a real Python
dict there is at most one). -/
def dictGet? : List (α × β) → α → Option β
  | [], _ => Option.none
  | kv :: rest, k => if kv.1 = k then some kv.2 else dictGet? rest k

/-- Replace the value of every binding of `k` by `v` (an association list
coming from a Python dict has at most one). -/
def setAll (k : α) (v : β) : List (α × β) → List (α × β)
  | [] => []
  | kv :: rest => (if kv.1 = k then (k, v) else kv) :: setAll k v rest

/-- `d[k] = v`: update the binding of `k` in place if present, append it
otherwise — exactly Python's insertion-order dict assignment. -/
def dictSet (d : List (α × β)) (k : α) (v : β) : List (α × β) :=
  if k ∈ keys d then setAll k v d else d ++ [(k, v)]

/-- Fold the entries of `src` into `base`, assigning those entries that
satisfy `cond`.  This is the shape of both preservation loops of
`EntryDetector.merge_configs`. -/
def dictUpdate (cond : α → β → Bool) (base : List (α × β)) :
    List (α × β) → List (α × β)
  | [] => base
  | kv :: rest =>
      dictUpdate cond (if cond kv.1 kv.2 then dictSet base kv.1 kv.2 else base) rest

/-- The value of the last entry of `src` with key `k` satisfying `cond`
(starting from `acc`); this is the value such an entry leaves in an
accumulating dict. -/
def lastVal (cond : α → β → Bool) (k : α) (acc : Option β) :
    List (α × β) → Option β
  | [] => acc
  | kv :: rest =>
      lastVal cond k (if kv.1 = k ∧ cond kv.1 kv.2 then some kv.2 else acc) rest

/-- The keys appended (in order) when folding `src` into a dict whose
current keys are `ks`. -/
def newKeys (cond : α → β → Bool) (ks : List α) : List (α × β) → List α
  | [] => []
  | kv :: rest =>
      if cond kv.1 kv.2 ∧ kv.1 ∉ ks then kv.1 :: newKeys cond (ks ++ [kv.1]) rest
      else newKeys cond ks rest

end PyDict

open PyDict

/-- Python string comparison `s < t`: lexicographic on code points. -/
def charsLt : List Char → List Char → Bool
  | [], [] => false
  | [], _ :: _ => true
  | _ :: _, [] => false
  | a :: as, b :: bs =>
      if a < b then true
      else if b < a then false
      else charsLt as bs

/-- Python string comparison `s < t` on `String`. -/
def strLt (s t : String) : Bool := charsLt s.data t.data

/-- Python string comparison `s <= t`, the order `sorted` arranges
strings in. -/
def strLe (s t : String) : Bool := !strLt t s

/-- `s.lower()`, modelled on the ASCII range. -/
def lowerStr (s : String) : String := String.mk (s.data.map Char.toLower)

/-- Whether `pat` is an initial segment of `l`
(`str.startswith` on code points). -/
def startsSeq : List Char → List Char → Bool
  | [], _ => true
  | _ :: _, [] => false
  | p :: ps, c :: cs => decide (p = c) && startsSeq ps cs

/-- Whether `pat` is a final segment of `l` (`str.endswith`). -/
def endsSeq (pat l : List Char) : Bool := startsSeq pat.reverse l.reverse

/-- Whether `pat` occurs as a contiguous subsequence of `l`
(Python's `pat in s`). -/
def containsSeq (pat : List Char) : List Char → Bool
  | [] => startsSeq pat []
  | c :: rest => startsSeq pat (c :: rest) || containsSeq pat rest

/-- A file record of a `config.yml` `files:` entry, as a Python dict. -/
abbrev FileDict := List (String × PyVal)

/-- `d[k]` on a file record.  Python raises `KeyError` when the key is
missing; the records built by `detect_directory` always carry the keys the
merge code reads, so the missing case is modelled as the YAML null value. -/
def pyGet (d : FileDict) (k : String) : PyVal :=
  (dictGet? d k).getD PyVal.none

/-- A per-directory `config.yml`, with the structural keys `files` and
`subdirs` (which `merge_configs` treats specially) split off from the
remaining directory-level metadata keys. -/
structure Config where
  files : List FileDict
  subdirs : List String
  meta : List (String × PyVal)
deriving DecidableEq, Repr

/-- One tracked change (`self.changes.append(f"...: {full_path}")` in
`EntryDetector.merge_configs`), modelled structurally as the change kind
together with the directory and filename used to build `full_path`. -/
inductive Change where
  | added (dir : String) (filename : PyVal)
  | modified (dir : String) (filename : PyVal)
  | deleted (dir : String) (filename : PyVal)
deriving DecidableEq, Repr

namespace EntryDetector

open PyDict

/-- `old_files = {f['filename']: f for f in old_config.get('files', [])}`:
a dict comprehension keyed by filename value; later entries overwrite
earlier ones. -/
def old_files (files : List FileDict) : List (PyVal × FileDict) :=
  dictUpdate (fun _ _ => true) []
    (files.map (fun f => (pyGet f "filename", f)))

/-- The per-file preservation condition
`if key in old_file and old_file[key]:` (the membership test is always true
inside `for key in old_file:`). -/
def fileCond : String → PyVal → Bool := fun _ v => v.truthy

/-- The directory-level preservation condition
`if key not in ['files', 'subdirs'] and old_config[key]:`. -/
def metaCond : String → PyVal → Bool := fun k v =>
  decide (k ≠ "files" ∧ k ≠ "subdirs") && v.truthy

/-- Merging one freshly scanned file record:
`merged_file = new_file.copy()` followed by
`for key in old_file: if ... old_file[key]: merged_file[key] = old_file[key]`
when the filename is found in `old_files`, the new record unchanged
otherwise. -/
def mergeOneFile (oldMap : List (PyVal × FileDict)) (nf : FileDict) : FileDict :=
  match dictGet? oldMap (pyGet nf "filename") with
  | some old_file => dictUpdate fileCond nf old_file
  | Option.none => nf

/-- The change message appended for one freshly scanned file record:
`Modified` when the filename is known and the md5 differs, `Added` when the
filename is new. -/
def fileChange (dir : String) (oldMap : List (PyVal × FileDict))
    (nf : FileDict) : Option Change :=
  match dictGet? oldMap (pyGet nf "filename") with
  | some old_file =>
      if pyGet old_file "md5" ≠ pyGet nf "md5" then
        some (.modified dir (pyGet nf "filename"))
      else Option.none
  | Option.none => some (.added dir (pyGet nf "filename"))

/-- `EntryDetector.merge_configs(old_config, new_config, directory)`.
Returns the merged config together with the change messages this call
appends to `self.changes` (file changes in scan order, then deletions in
`old_files` order).  `old_config is None` returns `new_config` unchanged.
The iteration `for key in old_config:` also visits the `files` and
`subdirs` keys, which the condition `key not in ['files','subdirs']`
skips; in the structured model those keys live outside `meta`, and the
loop is the fold of `old.meta` under `metaCond`. -/
def merge_configs (old_config : Option Config) (new_config : Config)
    (directory : String) : Config × List Change :=
  match old_config with
  | Option.none => (new_config, [])
  | some old =>
      let oldMap := old_files old.files
      let merged_files := new_config.files.map (mergeOneFile oldMap)
      let file_changes := new_config.files.filterMap (fileChange directory oldMap)
      let new_names := new_config.files.map (fun f => pyGet f "filename")
      let deleted := oldMap.filterMap (fun kv =>
        if kv.1 ∈ new_names then Option.none
        else some (Change.deleted directory kv.1))
      ({ files := merged_files,
         subdirs := new_config.subdirs,
         meta := dictUpdate metaCond new_config.meta old.meta },
       file_changes ++ deleted)

/-- One entry of `os.listdir(directory)`, with the data the detector reads
from the file system: `os.path.getsize` as `size` and the
`calculate_md5` digest as `md5`. -/
structure FSItem where
  name : String
  isDir : Bool
  size : Int
  md5 : String
deriving DecidableEq, Repr

/-- `os.path.join(directory, item)` for the relative paths this pipeline
builds. -/
def joinPath (dir item : String) : String :=
  if dir = "" then item else dir ++ "/" ++ item

/-- The characters after the last `'/'`. -/
def basenameChars : List Char → List Char
  | [] => []
  | c :: rest =>
      if c = '/' then basenameChars rest
      else if rest.contains '/' then basenameChars rest
      else c :: rest

/-- `os.path.basename`. -/
def basename (p : String) : String := String.mk (basenameChars p.data)

/-- `'workspace' in item` — substring containment. -/
def hasWorkspace (s : String) : Bool := containsSeq "workspace".data s.data

/-- The index of the last `'.'` of a string, if any. -/
def lastDotIdx : List Char → Option Nat
  | [] => Option.none
  | c :: rest =>
      match lastDotIdx rest with
      | some i => some (i + 1)
      | Option.none => if c = '.' then some 0 else Option.none

/-- `os.path.splitext`: split at the last dot, except that a run of
leading dots never starts an extension. -/
def splitext (s : String) : String × String :=
  match lastDotIdx s.data with
  | Option.none => (s, "")
  | some i =>
      if (s.data.take i).all (· = '.') then (s, "")
      else (⟨s.data.take i⟩, ⟨s.data.drop i⟩)

/-- `self.type_mapping` of `EntryDetector.__init__`. -/
def type_mapping : List (String × List String) :=
  [("webpage", [".html", ".md", ".htm"]),
   ("document", [".txt", ".doc", ".docx", ".pdf", ".epub"]),
   ("image", [".jpg", ".jpeg", ".png", ".gif", ".bmp", ".webp"]),
   ("video", [".mp4", ".avi", ".mov", ".wmv", ".flv", ".webm"]),
   ("audio", [".mp3", ".wav", ".ogg", ".m4a"]),
   ("other", [])]

/-- `self.format_mapping` of `EntryDetector.__init__`. -/
def format_mapping : List (String × String) :=
  [(".pdf", "PDF Document"),
   (".doc", "Microsoft Word Document"),
   (".docx", "Microsoft Word Document (OpenXML)"),
   (".txt", "Plain Text"),
   (".md", "Markdown"),
   (".epub", "EPUB Document"),
   (".jpg", "JPEG Image"),
   (".jpeg", "JPEG Image"),
   (".png", "PNG Image"),
   (".gif", "GIF Image"),
   (".webp", "WebP Image"),
   (".mp4", "MPEG-4 Video"),
   (".avi", "AVI Video"),
   (".mov", "QuickTime Video"),
   (".webm", "WebM Video"),
   (".mp3", "MP3 Audio"),
   (".wav", "WAV Audio"),
   (".ogg", "OGG Audio"),
   (".m4a", "M4A Audio")]

/-- `EntryDetector.get_file_type`: first type whose extension list contains
the lowercased extension, else `'other'`. -/
def get_file_type (filename : String) : String :=
  ((type_mapping.find? (fun tm => tm.2.contains (lowerStr (splitext filename).2))).map
    Prod.fst).getD "other"

/-- `EntryDetector.get_file_format`. -/
def get_file_format (filepath : String) : String :=
  (dictGet? format_mapping (lowerStr (splitext filepath).2)).getD "Unknown Format"

/-- `EntryDetector.should_include_file`.  `ignored` abstracts
`self.is_ignored` (the `digital.yml` regexes plus `git check-ignore`). -/
def should_include_file (ignored : String → Bool) (filepath : String)
    (filename : String) : Bool :=
  if filename ∈ ["README.md", "LICENSE", "LICENSE.md", ".gitignore",
      "config.yml", "CONTRIBUTING.md", "CODE_OF_CONDUCT.md"] then false
  else if startsSeq ".".data filename.data then false
  else if endsSeq "_page.md".data filename.data then false
  else if endsSeq ".conf".data filename.data then false
  else if ignored filepath then false
  else true

/-- `EntryDetector.detect_directory`, over an abstract directory listing:
iterate `sorted(os.listdir(directory))`, collecting included files into
`config['files']` and child directories that are not hidden, not ignored
and whose name does not contain `'workspace'` into `config['subdirs']`. -/
def detect_directory (ignored : String → Bool) (directory : String)
    (listing : List FSItem) : Config :=
  let sortedItems := listing.insertionSort (fun a b => strLe a.name b.name = true)
  { files := sortedItems.filterMap (fun item =>
      if !item.isDir &&
          should_include_file ignored (joinPath directory item.name) item.name then
        some [("name", PyVal.str (splitext item.name).1),
              ("filename", PyVal.str item.name),
              ("type", PyVal.str (get_file_type item.name)),
              ("format", PyVal.str (get_file_format (joinPath directory item.name))),
              ("size", PyVal.int item.size),
              ("md5", PyVal.str item.md5)]
      else Option.none),
    subdirs := sortedItems.filterMap (fun item =>
      if item.isDir && !startsSeq ".".data item.name.data &&
          !ignored (joinPath directory item.name) && !hasWorkspace item.name then
        some item.name
      else Option.none),
    meta := [("name", PyVal.str (if directory = "." then "" else basename directory)),
             ("description", PyVal.str ""),
             ("curator", PyVal.str ""),
             ("source", PyVal.str ""),
             ("tags", PyVal.list []),
             ("license", PyVal.str "")] }

end EntryDetector

namespace TocUtils

/-- `numeral_map` of `natural_sort_key` (`src/toc/utils.py`): the circled
numerals mapped to the integers their digit strings parse to. -/
def numeral_map : List (Char × Nat) :=
  [('①', 1), ('②', 2), ('③', 3), ('④', 4), ('⑤', 5),
   ('⑥', 6), ('⑦', 7), ('⑧', 8), ('⑨', 9), ('⑩', 10)]

/-- Lookup of a single character in `numeral_map`. -/
def circledVal? (c : Char) : Option Nat := PyDict.dictGet? numeral_map c

/-- Whether a character is one of the circled numerals of the split
pattern `([0-9]+|[①②③④⑤⑥⑦⑧⑨⑩])`. -/
def isCircled (c : Char) : Bool := (circledVal? c).isSome

/-- `re.split('([0-9]+|[①②③④⑤⑥⑦⑧⑨⑩])', s)` on the characters of `s`:
the list of fragments, alternating unmatched text (possibly empty) and
matched groups, beginning and ending with a text fragment.  Defined by
recursion on the string from the left; a digit is prepended to an
immediately following digit-run match so that matched runs are maximal. -/
def pySplit : List Char → List (List Char)
  | [] => [[]]
  | c :: rest =>
      let r := pySplit rest
      if isCircled c then [] :: [c] :: r
      else if c.isDigit then
        match r with
        | [] :: (d :: ds) :: rest' =>
            if d.isDigit then [] :: (c :: d :: ds) :: rest'
            else [] :: [c] :: r
        | _ => [] :: [c] :: r
      else
        match r with
        | t :: ts => (c :: t) :: ts
        | [] => [[c]]

/-- `int(text)` on a run of ASCII digits. -/
def digitsVal (t : List Char) : Nat :=
  t.foldl (fun acc c => acc * 10 + (c.toNat - '0'.toNat)) 0

/-- One fragment of a natural sort key: the `convert` helper returns either
an integer or a string. -/
inductive Frag where
  | int (n : Nat)
  | str (s : String)
deriving DecidableEq, Repr

/-- `text in numeral_map` for a fragment — the keys of `numeral_map` are
single-character strings. -/
def circledStrVal? : List Char → Option Nat
  | [c] => circledVal? c
  | _ => Option.none

/-- Start code points of the Unicode 14.0.0 decimal-digit runs
(`Numeric_Type=Decimal`): each run is the ten code points `lo` to `lo + 9`
carrying the decimal values 0 to 9.  These are exactly the characters that
CPython 3.11's `int()` accepts as digits, and a subset of those
`str.isdigit` reports. -/
def decStarts : List Nat :=
  [48, 1632, 1776, 1984, 2406, 2534, 2662, 2790,
   2918, 3046, 3174, 3302, 3430, 3558, 3664, 3792,
   3872, 4160, 4240, 6112, 6160, 6470, 6608, 6784,
   6800, 6992, 7088, 7232, 7248, 42528, 43216, 43264,
   43472, 43504, 43600, 44016, 65296, 66720, 68912, 69734,
   69872, 69942, 70096, 70384, 70736, 70864, 71248, 71360,
   71472, 71904, 72016, 72784, 73040, 73120, 92768, 92864,
   93008, 120782, 120792, 120802, 120812, 120822, 123200, 123632,
   125264, 130032]

/-- Scan of the decimal-digit runs: the decimal value of a code point, if
it lies in one of the ten-code-point runs. -/
def decValScan : List Nat → Nat → Option Nat
  | [], _ => Option.none
  | lo :: rest, n => if lo ≤ n ∧ n < lo + 10 then some (n - lo) else decValScan rest n

/-- Decimal value of a character as CPython's `int()` uses it: `some v` for
a Unicode decimal digit of value `v`, `none` otherwise. -/
def pyDecVal? (c : Char) : Option Nat := decValScan decStarts c.toNat

/-- Code-point ranges of the Unicode 14.0.0 characters with
`Numeric_Type=Digit` that are not decimal digits (superscripts, subscripts,
circled digits, …): `str.isdigit` accepts them but `int()` raises
`ValueError` on them. -/
def digitOnlyRanges : List (Nat × Nat) :=
  [(178, 179), (185, 185), (4969, 4977), (6618, 6618),
   (8304, 8304), (8308, 8313), (8320, 8329), (9312, 9320),
   (9332, 9340), (9352, 9360), (9450, 9450), (9461, 9469),
   (9471, 9471), (10102, 10110), (10112, 10120), (10122, 10130),
   (68160, 68163), (69216, 69224), (69714, 69722), (127232, 127242)]

/-- Membership of a code point in a list of inclusive ranges. -/
def inRanges : List (Nat × Nat) → Nat → Bool
  | [], _ => false
  | (lo, hi) :: rest, n => if lo ≤ n ∧ n ≤ hi then true else inRanges rest n

/-- Python's per-character digit test: a character is a digit iff it is a
decimal digit or has `Numeric_Type=Digit`. -/
def pyCharIsDigit (c : Char) : Bool :=
  (pyDecVal? c).isSome || inRanges digitOnlyRanges c.toNat

/-- Python's `str.isdigit`: true iff the string is nonempty and every
character is a digit. -/
def pyIsDigit (t : List Char) : Bool := !t.isEmpty && t.all pyCharIsDigit

/-- Run-length encoding of the Unicode 14.0.0 full lowercase mapping for
code points at and above 128, as CPython 3.11's `str.lower` applies it: an
entry `(s, c, st, ts)` maps the code points `s + i * st` for `i < c` to
`ts + i * st`.  The only code point whose lowercase is more than one
character (U+0130) is handled separately in `pyLowerChar`. -/
def lowerRuns : List (Nat × Nat × Nat × Nat) :=
  [(192, 23, 1, 224), (216, 7, 1, 248), (256, 24, 2, 257),
   (306, 3, 2, 307), (313, 8, 2, 314), (330, 23, 2, 331),
   (376, 1, 1, 255), (377, 3, 2, 378), (385, 1, 1, 595),
   (386, 2, 2, 387), (390, 1, 1, 596), (391, 1, 1, 392),
   (393, 2, 1, 598), (395, 1, 1, 396), (398, 1, 1, 477),
   (399, 1, 1, 601), (400, 1, 1, 603), (401, 1, 1, 402),
   (403, 1, 1, 608), (404, 1, 1, 611), (406, 1, 1, 617),
   (407, 1, 1, 616), (408, 1, 1, 409), (412, 1, 1, 623),
   (413, 1, 1, 626), (415, 1, 1, 629), (416, 3, 2, 417),
   (422, 1, 1, 640), (423, 1, 1, 424), (425, 1, 1, 643),
   (428, 1, 1, 429), (430, 1, 1, 648), (431, 1, 1, 432),
   (433, 2, 1, 650), (435, 2, 2, 436), (439, 1, 1, 658),
   (440, 1, 1, 441), (444, 1, 1, 445), (452, 1, 1, 454),
   (453, 1, 1, 454), (455, 1, 1, 457), (456, 1, 1, 457),
   (458, 1, 1, 460), (459, 9, 2, 460), (478, 9, 2, 479),
   (497, 1, 1, 499), (498, 2, 2, 499), (502, 1, 1, 405),
   (503, 1, 1, 447), (504, 20, 2, 505), (544, 1, 1, 414),
   (546, 9, 2, 547), (570, 1, 1, 11365), (571, 1, 1, 572),
   (573, 1, 1, 410), (574, 1, 1, 11366), (577, 1, 1, 578),
   (579, 1, 1, 384), (580, 1, 1, 649), (581, 1, 1, 652),
   (582, 5, 2, 583), (880, 2, 2, 881), (886, 1, 1, 887),
   (895, 1, 1, 1011), (902, 1, 1, 940), (904, 3, 1, 941),
   (908, 1, 1, 972), (910, 2, 1, 973), (913, 17, 1, 945),
   (931, 9, 1, 963), (975, 1, 1, 983), (984, 12, 2, 985),
   (1012, 1, 1, 952), (1015, 1, 1, 1016), (1017, 1, 1, 1010),
   (1018, 1, 1, 1019), (1021, 3, 1, 891), (1024, 16, 1, 1104),
   (1040, 32, 1, 1072), (1120, 17, 2, 1121), (1162, 27, 2, 1163),
   (1216, 1, 1, 1231), (1217, 7, 2, 1218), (1232, 48, 2, 1233),
   (1329, 38, 1, 1377), (4256, 38, 1, 11520), (4295, 1, 1, 11559),
   (4301, 1, 1, 11565), (5024, 80, 1, 43888), (5104, 6, 1, 5112),
   (7312, 43, 1, 4304), (7357, 3, 1, 4349), (7680, 75, 2, 7681),
   (7838, 1, 1, 223), (7840, 48, 2, 7841), (7944, 8, 1, 7936),
   (7960, 6, 1, 7952), (7976, 8, 1, 7968), (7992, 8, 1, 7984),
   (8008, 6, 1, 8000), (8025, 4, 2, 8017), (8040, 8, 1, 8032),
   (8072, 8, 1, 8064), (8088, 8, 1, 8080), (8104, 8, 1, 8096),
   (8120, 2, 1, 8112), (8122, 2, 1, 8048), (8124, 1, 1, 8115),
   (8136, 4, 1, 8050), (8140, 1, 1, 8131), (8152, 2, 1, 8144),
   (8154, 2, 1, 8054), (8168, 2, 1, 8160), (8170, 2, 1, 8058),
   (8172, 1, 1, 8165), (8184, 2, 1, 8056), (8186, 2, 1, 8060),
   (8188, 1, 1, 8179), (8486, 1, 1, 969), (8490, 1, 1, 107),
   (8491, 1, 1, 229), (8498, 1, 1, 8526), (8544, 16, 1, 8560),
   (8579, 1, 1, 8580), (9398, 26, 1, 9424), (11264, 48, 1, 11312),
   (11360, 1, 1, 11361), (11362, 1, 1, 619), (11363, 1, 1, 7549),
   (11364, 1, 1, 637), (11367, 3, 2, 11368), (11373, 1, 1, 593),
   (11374, 1, 1, 625), (11375, 1, 1, 592), (11376, 1, 1, 594),
   (11378, 1, 1, 11379), (11381, 1, 1, 11382), (11390, 2, 1, 575),
   (11392, 50, 2, 11393), (11499, 2, 2, 11500), (11506, 1, 1, 11507),
   (42560, 23, 2, 42561), (42624, 14, 2, 42625), (42786, 7, 2, 42787),
   (42802, 31, 2, 42803), (42873, 2, 2, 42874), (42877, 1, 1, 7545),
   (42878, 5, 2, 42879), (42891, 1, 1, 42892), (42893, 1, 1, 613),
   (42896, 2, 2, 42897), (42902, 10, 2, 42903), (42922, 1, 1, 614),
   (42923, 1, 1, 604), (42924, 1, 1, 609), (42925, 1, 1, 620),
   (42926, 1, 1, 618), (42928, 1, 1, 670), (42929, 1, 1, 647),
   (42930, 1, 1, 669), (42931, 1, 1, 43859), (42932, 8, 2, 42933),
   (42948, 1, 1, 42900), (42949, 1, 1, 642), (42950, 1, 1, 7566),
   (42951, 2, 2, 42952), (42960, 1, 1, 42961), (42966, 2, 2, 42967),
   (42997, 1, 1, 42998), (65313, 26, 1, 65345), (66560, 40, 1, 66600),
   (66736, 36, 1, 66776), (66928, 11, 1, 66967), (66940, 15, 1, 66979),
   (66956, 7, 1, 66995), (66964, 2, 1, 67003), (68736, 51, 1, 68800),
   (71840, 32, 1, 71872), (93760, 32, 1, 93792), (125184, 34, 1, 125218)]

/-- Scan of the lowercase runs: the lowercase code point of `n`, if some
run covers it. -/
def runScan : List (Nat × Nat × Nat × Nat) → Nat → Option Nat
  | [], _ => Option.none
  | (s, c, st, ts) :: rest, n =>
      if s ≤ n ∧ (n - s) % st = 0 ∧ (n - s) / st < c then some (ts + (n - s))
      else runScan rest n

/-- Python's per-character `str.lower`: ASCII letters map down by 32,
U+0130 maps to the two characters U+0069 U+0307, every other code point
maps through `lowerRuns` (or to itself when no run covers it). -/
def pyLowerChar (c : Char) : List Char :=
  if c.toNat < 128 then
    if 65 ≤ c.toNat ∧ c.toNat ≤ 90 then [Char.ofNat (c.toNat + 32)] else [c]
  else if c.toNat = 304 then [Char.ofNat 105, Char.ofNat 775]
  else match runScan lowerRuns c.toNat with
    | some m => [Char.ofNat m]
    | Option.none => [c]

/-- Python's `str.lower` on a character list. -/
def pyLower (t : List Char) : List Char := (t.map pyLowerChar).flatten

/-- Accumulating base-10 parse of a digit string, one character at a time;
`none` as soon as a character has no decimal value. -/
def pyIntAux : List Char → Nat → Option Nat
  | [], acc => some acc
  | c :: cs, acc => match pyDecVal? c with
      | some d => pyIntAux cs (acc * 10 + d)
      | Option.none => Option.none

/-- Python's `int(text)` restricted to the strings `convert` applies it to
(nonempty, every character a digit, so no sign, whitespace or underscore):
the base-10 value over the characters' decimal values, `none` (a raised
`ValueError`) when a character is a non-decimal digit. -/
def pyInt? (t : List Char) : Option Nat :=
  if t.isEmpty then Option.none else pyIntAux t 0

/-- The `convert` helper of `natural_sort_key`:
`int(numeral_map[text])` for a circled numeral, otherwise
`int(text) if text.isdigit() else text.lower()`.  `int()` raises
`ValueError` on an `isdigit`-true string containing a non-decimal digit,
modelled as `Except.error`. -/
def convert (t : List Char) : Except String Frag :=
  match circledStrVal? t with
  | some n => Except.ok (Frag.int n)
  | Option.none =>
      if pyIsDigit t then
        match pyInt? t with
        | some n => Except.ok (Frag.int n)
        | Option.none => Except.error "ValueError"
      else Except.ok (Frag.str (String.mk (pyLower t)))

/-- Conversion of every fragment of a split, left to right, with the first
raised `ValueError` propagating out of the list comprehension. -/
def convertAll : List (List Char) → Except String (List Frag)
  | [] => Except.ok []
  | t :: ts =>
      match convert t, convertAll ts with
      | Except.ok f, Except.ok fs => Except.ok (f :: fs)
      | Except.error e, _ => Except.error e
      | Except.ok _, Except.error e => Except.error e

/-- `natural_sort_key(s)` (`src/toc/utils.py`):
`[convert(c) for c in re.split(pattern, s)]`, raising whenever one of the
conversions raises. -/
def natural_sort_key (s : String) : Except String (List Frag) :=
  convertAll (pySplit s.data)

/-- The alternation invariant of the fragments of a split.  At `true`
(expecting an unmatched text fragment) the list is nonempty and its head
contains no ASCII digit and no circled numeral; at `false` (expecting a
matched group) the head, if any, is a nonempty ASCII digit run or a
single circled numeral. -/
def GoodAlt : Bool → List (List Char) → Prop
  | true, [] => False
  | true, t :: rest =>
      (∀ c ∈ t, c.isDigit = false ∧ isCircled c = false) ∧ GoodAlt false rest
  | false, [] => True
  | false, m :: rest =>
      ((m ≠ [] ∧ ∀ c ∈ m, c.isDigit = true) ∨
        (∃ c, isCircled c = true ∧ m = [c])) ∧ GoodAlt true rest

/-- `<` on key fragments, as Python's list comparison uses it.  Comparing an
integer with a string raises `TypeError` in Python; keys produced by
`natural_sort_key` carry strings exactly at even positions and integers at
odd positions, so the mixed case never arises when two such keys are
compared position by position; it is fixed here as `int < str`. -/
def fragLt : Frag → Frag → Bool
  | .int m, .int n => decide (m < n)
  | .str s, .str t => strLt s t
  | .int _, .str _ => true
  | .str _, .int _ => false

/-- Lexicographic comparison of sort keys: Python compares lists element by
element, and a strict prefix is smaller. -/
def keyLe : List Frag → List Frag → Bool
  | [], _ => true
  | _ :: _, [] => false
  | a :: as, b :: bs =>
      if fragLt a b then true
      else if fragLt b a then false
      else keyLe as bs

/-- The sort key of a string as the comparisons of
`sorted(strings, key=natural_sort_key)` consume it.  A key whose
computation raises aborts Python's `sorted` before any comparison; the
order model is made total by assigning such strings the empty key, so the
ordering statements coincide with Python on every input whose keys all
succeed. -/
def keyOf (s : String) : List Frag :=
  match natural_sort_key s with
  | Except.ok k => k
  | Except.error _ => []

/-- The ordering `sorted(strings, key=natural_sort_key)` sorts by. -/
def keyRel (a b : String) : Prop :=
  keyLe (keyOf a) (keyOf b) = true

instance : DecidableRel keyRel := fun a b => by
  unfold keyRel
  infer_instance

/-- `sorted(strings, key=natural_sort_key)`: Python's sort is stable, as is
insertion sort. -/
def pySortStrings (l : List String) : List String := l.insertionSort keyRel

end TocUtils

/-- The result of a guarded file-system or YAML read inside a
`try`/`except` block: either the parsed value or a raised exception. -/
inductive ReadResult (α : Type u) where
  | ok (val : α)
  | err
deriving DecidableEq, Repr

namespace FilesProcessor

open TocUtils

/-- `natural_sort_key(x['name'])` on a file record: `re.split` requires a
string, and the records built by the detector always carry a string
`name`. -/
def nameKey (f : FileDict) : List Frag :=
  keyOf (match pyGet f "name" with
    | PyVal.str s => s
    | _ => "")

/-- The ordering `sorted(files, key=lambda x: natural_sort_key(x['name']))`
sorts file records by. -/
def fileRel (f g : FileDict) : Prop := keyLe (nameKey f) (nameKey g) = true

instance : DecidableRel fileRel := fun f g => by
  unfold fileRel
  infer_instance

/-- The initial `categories` dict of `FilesProcessor.process`: one entry per
file type, each holding the single year bucket `'0000'`. -/
def initCategories : List (PyVal × List (String × List (String × PyVal))) :=
  [(PyVal.str "document", [("0000", [])]),
   (PyVal.str "image", [("0000", [])]),
   (PyVal.str "video", [("0000", [])]),
   (PyVal.str "audio", [("0000", [])]),
   (PyVal.str "webpage", [("0000", [])]),
   (PyVal.str "other", [("0000", [])])]

/-- The pair appended for one file record:
`(formatted_entry, file_info.get('archived_date', '0000-12-31'))`;
`fmt` abstracts `self.entry_formatter(self.entry_generator.generate(...))`. -/
def entryOf (fmt : FileDict → String) (f : FileDict) : String × PyVal :=
  (fmt f, (PyDict.dictGet? f "archived_date").getD (PyVal.str "0000-12-31"))

/-- One step of the loop body of `FilesProcessor.process`:
`categories[file_type]['0000'].append((formatted_entry, archived_date))`.
A `file_type` that is not a key of `categories` raises `KeyError` in
Python; the records the detector builds always carry one of the six types,
and the unknown-type case is modelled as a no-op. -/
def processStep (fmt : FileDict → String)
    (cats : List (PyVal × List (String × List (String × PyVal))))
    (f : FileDict) : List (PyVal × List (String × List (String × PyVal))) :=
  match PyDict.dictGet? cats (pyGet f "type") with
  | some buckets =>
      PyDict.dictSet cats (pyGet f "type")
        (PyDict.dictSet buckets "0000"
          (((PyDict.dictGet? buckets "0000").getD []) ++ [entryOf fmt f]))
  | Option.none => cats

/-- The loop of `FilesProcessor.process` over the sorted records. -/
def processLoop (fmt : FileDict → String)
    (cats : List (PyVal × List (String × List (String × PyVal)))) :
    List FileDict → List (PyVal × List (String × List (String × PyVal)))
  | [] => cats
  | f :: rest => processLoop fmt (processStep fmt cats f) rest

/-- `FilesProcessor.process(files, directory)` restricted to the categories
structure it returns (the `all_entries` bookkeeping feeds other outputs and
is not part of the returned value). -/

def process (fmt : FileDict → String) (files : List FileDict) :
    List (PyVal × List (String × List (String × PyVal))) :=
  processLoop fmt initCategories (files.insertionSort fileRel)

/-- The entries of one file type, in sorted processing order. -/
def entriesOfType (fmt : FileDict → String) (t : String) (l : List FileDict) :
    List (String × PyVal) :=
  l.filterMap (fun f =>
    if pyGet f "type" = PyVal.str t then some (entryOf fmt f) else Option.none)

end FilesProcessor

namespace DirectoryProcessor

/-- `DirectoryProcessor.process(subdirs, directory)`: for each subdirectory
name in sorted order, build the entry from its name, its recursive file
count and, when the subdirectory's `config.yml` read succeeds, its
description; a read error only drops the description (a warning is printed)
and the entry is still generated, so processing continues.  `count`
abstracts `count_files_recursive` and `readDesc` the guarded config
read. -/
def process (fmt : String → Nat → Option String → String)
    (subdirs : List String) (count : String → Nat)
    (readDesc : String → ReadResult (Option String)) : List String :=
  (subdirs.insertionSort (fun a b => strLe a b = true)).map (fun name =>
    match readDesc name with
    | .ok d => fmt name (count name) d
    | .err => fmt name (count name) Option.none)

end DirectoryProcessor

namespace Catalog

open EntryDetector

/-- `find_config_files` of `src/config/catalog.py` over the discovered
`config.yml` files in walk order, each given as its directory path together
with the guarded read of its `description` field.  A read error prints the
error and calls `sys.exit(1)`, modelled as `Except.error`: the whole run
terminates and no catalog is produced. -/
def find_config_files :
    List (String × ReadResult (Option String)) →
      Except String (List (String × String × String))
  | [] => .ok []
  | (path, .err) :: _ => .error "sys.exit(1)"
  | (path, .ok desc) :: rest =>
      match find_config_files rest with
      | .ok entries =>
          .ok ((path, basename path, desc.getD "No description available") :: entries)
      | .error e => .error e

end Catalog

namespace Md5List

open PyDict

/-- One file entry of the MD5 catalog
(`{'name': ..., 'path': ..., 'md5': ...}` in `find_md5_in_config`). -/
structure Md5Info where
  name : String
  path : String
  md5 : String
deriving DecidableEq, Repr

/-- `find_md5_in_config` of `src/config/get_md5_list.py`: any exception
while reading one config returns `{}` — the error is logged and the walk
continues with the other configs. -/
def find_md5_in_config : ReadResult (List Md5Info) → List Md5Info
  | .ok infos => infos
  | .err => []

/-- The extraction part of `find_config_files` of `get_md5_list.py`: the
md5 info of every readable config, a failed read contributing nothing. -/
def md5_find_config_files (configs : List (ReadResult (List Md5Info))) :
    List Md5Info :=
  (configs.map find_md5_in_config).flatten

/-- The duplicate-warning pass of `find_config_files`
(`get_md5_list.py` lines 108-116): `md5_to_files` maps each md5 to the
first path seen; a repeated md5 prints a `WARNING: Duplicate MD5 hash`
naming both files.  The warnings are returned as
(first path, colliding path) pairs. -/
def dupWarnAux (seen : List (String × String)) :
    List Md5Info → List (String × String)
  | [] => []
  | i :: rest =>
      match dictGet? seen i.md5 with
      | some first => (first, i.path) :: dupWarnAux seen rest
      | Option.none => dupWarnAux (dictSet seen i.md5 i.path) rest

/-- All duplicate warnings emitted while scanning the md5 infos. -/
def dup_warnings (infos : List Md5Info) : List (String × String) :=
  dupWarnAux [] infos

/-- The first pass of `md5_list_main`: `duplicates_to_remove`, the
filenames whose md5 was already seen (in catalog order; Python holds them
in a set). -/
def dupsAux (seen : List String) : List (String × Md5Info) → List String
  | [] => []
  | (fn, info) :: rest =>
      if info.md5 ∈ seen then fn :: dupsAux seen rest
      else dupsAux (info.md5 :: seen) rest

/-- `del d[k]`. -/
def dictDel (d : List (String × Md5Info)) (k : String) : List (String × Md5Info) :=
  d.filter (fun kv => decide (kv.1 ≠ k))

/-- The outcome of `md5_list_main`: the returned `md5_catalog` dict, the
sorted contents written to `md5.yml` by `generate_md5_catalog`, and the
returned `removed_files` list. -/
structure Md5Result where
  catalog : List (String × Md5Info)
  written : List (String × Md5Info)
  removed : List String
deriving DecidableEq, Repr

/-- `md5_list_main` of `src/config/get_md5_list.py`, from the collected
`md5_catalog` on: collect `duplicates_to_remove`; if `remove_duplicates`,
delete each duplicate file (and its `_page.md` neighbour when present,
`pageExists` abstracting `os.path.exists`) and drop it from the catalog;
`sys.exit(1)` (`Except.error`) when duplicates were found with
`fail_on_duplicates` set and `remove_duplicates` not; otherwise write the
sorted catalog and return it with the removed files. -/
def md5_list_main (md5_catalog : List (String × Md5Info))
    (fail_on_duplicates remove_duplicates : Bool)
    (pageExists : String → Bool) : Except String Md5Result :=
  let dups := dupsAux [] md5_catalog
  let catRem :=
    if remove_duplicates then
      dups.foldl (fun acc fn =>
        match dictGet? acc.1 fn with
        | some info =>
            let page := (EntryDetector.splitext info.path).1 ++ "_page.md"
            (dictDel acc.1 fn,
             acc.2 ++ [info.path] ++ (if pageExists page then [page] else []))
        | Option.none => acc) (md5_catalog, [])
    else (md5_catalog, [])
  if dups ≠ [] ∧ fail_on_duplicates = true ∧ remove_duplicates = false then
    Except.error "sys.exit(1)"
  else
    Except.ok
      { catalog := catRem.1,
        written := catRem.1.insertionSort (fun a b => strLe a.1 b.1 = true),
        removed := catRem.2 }

end Md5List

/-! ## Supporting lemmas -/

namespace PyDict

variable {α : Type u} {β : Type v} [DecidableEq α]

@[simp] theorem keys_nil : keys ([] : List (α × β)) = [] := rfl

@[simp] theorem keys_cons (kv : α × β) (d : List (α × β)) :
    keys (kv :: d) = kv.1 :: keys d := rfl

@[simp] theorem setAll_nil (k : α) (v : β) : setAll k v ([] : List (α × β)) = [] := rfl

@[simp] theorem setAll_cons (k : α) (v : β) (kv : α × β) (d : List (α × β)) :
    setAll k v (kv :: d) = (if kv.1 = k then (k, v) else kv) :: setAll k v d := rfl

theorem dictGet?_eq_none_iff (d : List (α × β)) (k : α) :
    dictGet? d k = Option.none ↔ k ∉ keys d := by
  induction d with
  | nil => simp [dictGet?, keys]
  | cons kv rest ih =>
    by_cases h : kv.1 = k
    · subst h
      simp [dictGet?, keys]
    · have h' : ¬ (k = kv.1) := fun hc => h hc.symm
      simp [dictGet?, keys, h, h', ih]

theorem dictGet?_mem {d : List (α × β)} {k : α} {v : β}
    (h : dictGet? d k = some v) : (k, v) ∈ d := by
  induction d with
  | nil => simp [dictGet?] at h
  | cons kv rest ih =>
    by_cases hk : kv.1 = k
    · simp [dictGet?, hk] at h
      subst hk h
      exact List.mem_cons_self _ _
    · simp [dictGet?, hk] at h
      exact List.mem_cons_of_mem _ (ih h)

theorem dictGet?_append (d₁ d₂ : List (α × β)) (k : α) :
    dictGet? (d₁ ++ d₂) k =
      match dictGet? d₁ k with
      | some v => some v
      | Option.none => dictGet? d₂ k := by
  induction d₁ with
  | nil => simp [dictGet?]
  | cons kv rest ih =>
    by_cases h : kv.1 = k <;> simp [dictGet?, h, ih]

theorem keys_setAll (k : α) (v : β) (d : List (α × β)) :
    keys (setAll k v d) = keys d := by
  induction d with
  | nil => rfl
  | cons kv rest ih =>
    by_cases h : kv.1 = k
    · simp [h, ih]
    · simp [h, ih]

theorem dictGet?_setAll_self {k : α} (v : β) {d : List (α × β)}
    (h : k ∈ keys d) : dictGet? (setAll k v d) k = some v := by
  induction d with
  | nil => simp at h
  | cons kv rest ih =>
    by_cases hk : kv.1 = k
    · simp [dictGet?, hk]
    · have hmem : k ∈ keys rest := by
        simp at h
        rcases h with h | h
        · exact (hk h.symm).elim
        · exact h
      simpa [dictGet?, hk] using ih hmem

theorem dictGet?_setAll_ne {k k' : α} (v : β) (d : List (α × β))
    (h : k' ≠ k) : dictGet? (setAll k v d) k' = dictGet? d k' := by
  induction d with
  | nil => rfl
  | cons kv rest ih =>
    by_cases hk : kv.1 = k
    · have h1 : ¬ (k = k') := fun hc => h hc.symm
      simp [dictGet?, hk, h1, ih]
    · by_cases hk' : kv.1 = k' <;> simp [dictGet?, hk, hk', h, ih]

theorem keys_dictSet (d : List (α × β)) (k : α) (v : β) :
    keys (dictSet d k v) = if k ∈ keys d then keys d else keys d ++ [k] := by
  by_cases h : k ∈ keys d
  · rw [dictSet, if_pos h, if_pos h, keys_setAll]
  · rw [dictSet, if_neg h, if_neg h]
    simp [keys]

theorem dictGet?_dictSet (d : List (α × β)) (k : α) (v : β) (k' : α) :
    dictGet? (dictSet d k v) k' = if k' = k then some v else dictGet? d k' := by
  by_cases hmem : k ∈ keys d
  · by_cases hk' : k' = k
    · subst hk'
      simp [dictSet, hmem, dictGet?_setAll_self v hmem]
    · simp [dictSet, hmem, hk', dictGet?_setAll_ne v d hk']
  · rw [dictSet, if_neg hmem, dictGet?_append]
    by_cases hk' : k' = k
    · subst hk'
      have : dictGet? d k' = Option.none := (dictGet?_eq_none_iff d k').mpr hmem
      simp [this, dictGet?]
    · have : ¬ (k = k') := fun h => hk' h.symm
      cases h : dictGet? d k' <;> simp [dictGet?, hk', this]

theorem lastVal_of_not_mem {cond : α → β → Bool} {k : α} (acc : Option β)
    {src : List (α × β)} (h : k ∉ keys src) : lastVal cond k acc src = acc := by
  induction src generalizing acc with
  | nil => rfl
  | cons kv rest ih =>
    have hk : ¬ (kv.1 = k) := by
      intro hc
      exact h (by simp [hc])
    have hr : k ∉ keys rest := fun hc => h (by simp [hc])
    simp [lastVal, hk, ih _ hr]

theorem lastVal_some {cond : α → β → Bool} {k : α} {acc : Option β}
    {src : List (α × β)} {v : β} (h : lastVal cond k acc src = some v) :
    acc = some v ∨ (cond k v = true ∧ (k, v) ∈ src) := by
  induction src generalizing acc with
  | nil => exact Or.inl h
  | cons kv rest ih =>
    rcases ih h with h' | h'
    · by_cases hc : kv.1 = k ∧ cond kv.1 kv.2 = true
      · rw [if_pos hc] at h'
        obtain ⟨hk, hcond⟩ := hc
        obtain rfl : kv.2 = v := by injection h'
        refine Or.inr ⟨by rwa [hk] at hcond, ?_⟩
        rw [show (k, kv.2) = kv from by rw [← hk]]
        exact List.mem_cons_self _ _
      · rw [if_neg hc] at h'
        exact Or.inl h'
    · exact Or.inr ⟨h'.1, List.mem_cons_of_mem _ h'.2⟩

theorem lastVal_of_get {cond : α → β → Bool} {k : α} {src : List (α × β)}
    {v : β} (hnd : (keys src).Nodup) (h : dictGet? src k = some v)
    (acc : Option β) :
    lastVal cond k acc src = if cond k v then some v else acc := by
  induction src generalizing acc with
  | nil => simp [dictGet?] at h
  | cons kv rest ih =>
    by_cases hk : kv.1 = k
    · have hv : kv.2 = v := by
        rw [dictGet?, if_pos hk] at h
        injection h
      have hnr : k ∉ keys rest := by
        subst hk
        exact (List.nodup_cons.mp hnd).1
      rw [lastVal, lastVal_of_not_mem _ hnr]
      subst hk hv
      by_cases hc : cond kv.1 kv.2 = true
      · simp [hc]
      · simp [hc]
    · have h' : dictGet? rest k = some v := by rwa [dictGet?, if_neg hk] at h
      rw [lastVal, if_neg (fun hc => hk hc.1)]
      exact ih (List.nodup_cons.mp hnd).2 h' acc

theorem dictGet?_dictUpdate (cond : α → β → Bool) (base : List (α × β))
    (src : List (α × β)) (k : α) :
    dictGet? (dictUpdate cond base src) k =
      lastVal cond k (dictGet? base k) src := by
  induction src generalizing base with
  | nil => rfl
  | cons kv rest ih =>
    rw [dictUpdate, lastVal, ih]
    congr 1
    by_cases hc : cond kv.1 kv.2 = true
    · rw [if_pos hc, dictGet?_dictSet]
      by_cases hk : kv.1 = k
      · subst hk
        simp [hc]
      · have hk' : ¬ (k = kv.1) := fun h => hk h.symm
        simp [hc, hk, hk']
    · rw [if_neg hc, if_neg (fun hc' => hc hc'.2)]

theorem keys_dictUpdate (cond : α → β → Bool) (base : List (α × β))
    (src : List (α × β)) :
    keys (dictUpdate cond base src) = keys base ++ newKeys cond (keys base) src := by
  induction src generalizing base with
  | nil => simp [dictUpdate, newKeys]
  | cons kv rest ih =>
    rw [dictUpdate, newKeys]
    by_cases hc : cond kv.1 kv.2 = true
    · by_cases hk : kv.1 ∈ keys base
      · have : ¬ (cond kv.1 kv.2 = true ∧ kv.1 ∉ keys base) := fun hc' => hc'.2 hk
        rw [if_pos hc, if_neg this, ih, keys_dictSet, if_pos hk]
      · rw [if_pos hc, if_pos ⟨hc, hk⟩, ih, keys_dictSet, if_neg hk,
          List.append_assoc]
        rfl
    · rw [if_neg hc, if_neg (fun hc' => hc hc'.1), ih]

theorem newKeys_not_mem (cond : α → β → Bool) (ks : List α)
    (src : List (α × β)) : ∀ x ∈ newKeys cond ks src, x ∉ ks := by
  induction src generalizing ks with
  | nil => simp [newKeys]
  | cons kv rest ih =>
    intro x hx
    rw [newKeys] at hx
    by_cases hc : cond kv.1 kv.2 = true ∧ kv.1 ∉ ks
    · rw [if_pos hc] at hx
      rcases List.mem_cons.mp hx with rfl | hx'
      · exact hc.2
      · intro hks
        exact ih _ x hx' (List.mem_append_left _ hks)
    · rw [if_neg hc] at hx
      exact ih _ x hx

theorem nodup_append_newKeys (cond : α → β → Bool) {ks : List α}
    (src : List (α × β)) (hnd : ks.Nodup) :
    (ks ++ newKeys cond ks src).Nodup := by
  induction src generalizing ks with
  | nil => simpa [newKeys]
  | cons kv rest ih =>
    rw [newKeys]
    by_cases hc : cond kv.1 kv.2 = true ∧ kv.1 ∉ ks
    · rw [if_pos hc, List.append_cons]
      exact ih (by simp [List.nodup_append, hnd, hc.2])
    · rw [if_neg hc]
      exact ih hnd

theorem nodup_keys_dictUpdate (cond : α → β → Bool) {base : List (α × β)}
    (src : List (α × β)) (hnd : (keys base).Nodup) :
    (keys (dictUpdate cond base src)).Nodup := by
  rw [keys_dictUpdate]
  exact nodup_append_newKeys cond src hnd

theorem mem_setAll {k : α} {v : β} {d : List (α × β)} {x : α × β}
    (h : x ∈ setAll k v d) : x ∈ d ∨ x = (k, v) := by
  induction d with
  | nil => simp [setAll] at h
  | cons kv rest ih =>
    rw [setAll] at h
    rcases List.mem_cons.mp h with h' | h'
    · by_cases hk : kv.1 = k
      · rw [if_pos hk] at h'
        exact Or.inr h'
      · rw [if_neg hk] at h'
        exact Or.inl (h' ▸ List.mem_cons_self _ _)
    · rcases ih h' with h'' | h''
      · exact Or.inl (List.mem_cons_of_mem _ h'')
      · exact Or.inr h''

theorem mem_dictSet {d : List (α × β)} {k : α} {v : β} {x : α × β}
    (h : x ∈ dictSet d k v) : x ∈ d ∨ x = (k, v) := by
  rw [dictSet] at h
  by_cases hk : k ∈ keys d
  · rw [if_pos hk] at h
    exact mem_setAll h
  · rw [if_neg hk] at h
    rcases List.mem_append.mp h with h' | h'
    · exact Or.inl h'
    · exact Or.inr (by simpa using h')

theorem mem_dictUpdate {cond : α → β → Bool} {base : List (α × β)}
    {src : List (α × β)} {x : α × β} (h : x ∈ dictUpdate cond base src) :
    x ∈ base ∨ (cond x.1 x.2 = true ∧ x ∈ src) := by
  induction src generalizing base with
  | nil => exact Or.inl h
  | cons kv rest ih =>
    rw [dictUpdate] at h
    rcases ih h with h' | h'
    · by_cases hc : cond kv.1 kv.2 = true
      · rw [if_pos hc] at h'
        rcases mem_dictSet h' with h'' | h''
        · exact Or.inl h''
        · subst h''
          exact Or.inr ⟨hc, List.mem_cons_self _ _⟩
      · rw [if_neg hc] at h'
        exact Or.inl h'
    · exact Or.inr ⟨h'.1, List.mem_cons_of_mem _ h'.2⟩

theorem dict_ext {d₁ d₂ : List (α × β)} (hnd : (keys d₁).Nodup)
    (hkeys : keys d₁ = keys d₂) (hget : ∀ k, dictGet? d₁ k = dictGet? d₂ k) :
    d₁ = d₂ := by
  induction d₁ generalizing d₂ with
  | nil =>
    cases d₂ with
    | nil => rfl
    | cons kv rest => simp [keys] at hkeys
  | cons kv rest ih =>
    cases d₂ with
    | nil => simp [keys] at hkeys
    | cons kv₂ rest₂ =>
      have hk : kv.1 = kv₂.1 := by
        have := congrArg List.head? hkeys
        simpa using this
      have hv : kv.2 = kv₂.2 := by
        have h1 := hget kv.1
        rw [dictGet?, if_pos rfl, dictGet?, if_pos hk.symm] at h1
        injection h1
      have hkr : keys rest = keys rest₂ := by
        simpa using congrArg List.tail hkeys
      have hndr : (keys rest).Nodup := (List.nodup_cons.mp hnd).2
      have hgr : ∀ k, dictGet? rest k = dictGet? rest₂ k := by
        intro k
        by_cases hkk : kv.1 = k
        · subst hkk
          have h1 : kv.1 ∉ keys rest := (List.nodup_cons.mp hnd).1
          have h2 : kv.1 ∉ keys rest₂ := hkr ▸ h1
          rw [(dictGet?_eq_none_iff _ _).mpr h1, (dictGet?_eq_none_iff _ _).mpr h2]
        · have h1 := hget k
          rw [dictGet?, if_neg hkk, dictGet?, if_neg (hk ▸ hkk)] at h1
          exact h1
      have hrest : rest = rest₂ := ih hndr hkr hgr
      have hkv : kv = kv₂ := by
        cases kv; cases kv₂
        simp only at hk hv
        rw [hk, hv]
      rw [hrest, hkv]

theorem dictGet?_of_mem_nodup {d : List (α × β)} {k : α} {v : β}
    (hnd : (keys d).Nodup) (h : (k, v) ∈ d) : dictGet? d k = some v := by
  induction d with
  | nil => simp at h
  | cons kv rest ih =>
    rcases List.mem_cons.mp h with h' | h'
    · rw [← h', dictGet?, if_pos rfl]
    · have hk : ¬ (kv.1 = k) := by
        intro hc
        refine (List.nodup_cons.mp hnd).1 ?_
        rw [hc]
        exact List.mem_map.mpr ⟨(k, v), h', rfl⟩
      rw [dictGet?, if_neg hk]
      exact ih (List.nodup_cons.mp hnd).2 h'

theorem setAll_of_not_mem {k : α} (v : β) {d : List (α × β)}
    (h : k ∉ keys d) : setAll k v d = d := by
  induction d with
  | nil => rfl
  | cons kv rest ih =>
    have hk : ¬ (kv.1 = k) := by
      intro hc
      exact h (by simp [hc])
    rw [setAll, if_neg hk, ih (fun hc => h (by simp [hc]))]

theorem dictSet_self {d : List (α × β)} {k : α} {v : β}
    (hnd : (keys d).Nodup) (h : (k, v) ∈ d) : dictSet d k v = d := by
  have hk : k ∈ keys d := List.mem_map.mpr ⟨(k, v), h, rfl⟩
  rw [dictSet, if_pos hk]
  induction d with
  | nil => simp at h
  | cons kv rest ih =>
    rcases List.mem_cons.mp h with h' | h'
    · have h1 : kv.1 = k := by rw [← h']
      rw [setAll, if_pos h1, ← h']
      have h2 : k ∉ keys rest := by
        rw [← h1]
        exact (List.nodup_cons.mp hnd).1
      rw [setAll_of_not_mem _ h2]
    · have h1 : ¬ (kv.1 = k) := by
        intro hc
        refine (List.nodup_cons.mp hnd).1 ?_
        rw [hc]
        exact List.mem_map.mpr ⟨(k, v), h', rfl⟩
      rw [setAll, if_neg h1,
        ih (List.nodup_cons.mp hnd).2 h' (List.mem_map.mpr ⟨(k, v), h', rfl⟩)]

theorem dictUpdate_self {cond : α → β → Bool} {base : List (α × β)}
    {src : List (α × β)} (hnd : (keys base).Nodup)
    (h : ∀ kv ∈ src, kv ∈ base) : dictUpdate cond base src = base := by
  induction src with
  | nil => rfl
  | cons kv rest ih =>
    rw [dictUpdate]
    have hb : dictSet base kv.1 kv.2 = base := by
      have := dictSet_self hnd (show (kv.1, kv.2) ∈ base from by
        simpa using h kv (List.mem_cons_self _ _))
      exact this
    by_cases hc : cond kv.1 kv.2 = true
    · rw [if_pos hc, hb]
      exact ih (fun kv' h' => h kv' (List.mem_cons_of_mem _ h'))
    · rw [if_neg hc]
      exact ih (fun kv' h' => h kv' (List.mem_cons_of_mem _ h'))

theorem newKeys_append_of_mem (cond : α → β → Bool) (ks : List α)
    {pre : List (α × β)} (src : List (α × β))
    (h : ∀ kv ∈ pre, kv.1 ∈ ks) :
    newKeys cond ks (pre ++ src) = newKeys cond ks src := by
  induction pre with
  | nil => rfl
  | cons kv rest ih =>
    have hk : kv.1 ∈ ks := h kv (List.mem_cons_self _ _)
    rw [List.cons_append, newKeys, if_neg (fun hc => hc.2 hk)]
    exact ih (fun kv' h' => h kv' (List.mem_cons_of_mem _ h'))

theorem newKeys_all_cond (cond : α → β → Bool)
    {src : List (α × β)} (hcond : ∀ kv ∈ src, cond kv.1 kv.2 = true)
    (hnd : (keys src).Nodup) :
    ∀ ks, (∀ x ∈ keys src, x ∉ ks) → newKeys cond ks src = keys src := by
  induction src with
  | nil => intro ks _; rfl
  | cons kv rest ih =>
    intro ks hks
    have h1 : cond kv.1 kv.2 = true := hcond kv (List.mem_cons_self _ _)
    have h2 : kv.1 ∉ ks := hks kv.1 (by simp)
    rw [newKeys, if_pos ⟨h1, h2⟩, keys_cons,
      ih (fun kv' h' => hcond kv' (List.mem_cons_of_mem _ h'))
        (List.nodup_cons.mp hnd).2 (ks ++ [kv.1]) ?_]
    intro x hx hmem
    rcases List.mem_append.mp hmem with h' | h'
    · exact hks x (by simp [hx]) h'
    · have : x = kv.1 := by simpa using h'
      subst this
      exact (List.nodup_cons.mp hnd).1 hx

theorem dictUpdate_idem (cond : α → β → Bool) {base : List (α × β)}
    (src : List (α × β)) (hnd : (keys base).Nodup) :
    dictUpdate cond base (dictUpdate cond base src) =
      dictUpdate cond base src := by
  set M := dictUpdate cond base src with hM
  have hkeysM : keys M = keys base ++ newKeys cond (keys base) src :=
    keys_dictUpdate cond base src
  have hndM : (keys M).Nodup := nodup_keys_dictUpdate cond src hnd
  -- the appended tail of `M`, beyond the entries of `base`
  have hsplit : List.take base.length M ++ List.drop base.length M = M :=
    List.take_append_drop _ _
  have hlenb : (keys base).length = base.length := List.length_map _ _
  have hkeysTake : keys (List.take base.length M) = keys base := by
    rw [keys, List.map_take, ← keys, hkeysM, ← hlenb, List.take_left]
  have hkeysDrop : keys (List.drop base.length M) = newKeys cond (keys base) src := by
    rw [keys, List.map_drop, ← keys, hkeysM, ← hlenb, List.drop_left]
  have hcondDrop : ∀ kv ∈ List.drop base.length M, cond kv.1 kv.2 = true := by
    intro kv hkv
    have hmemM : kv ∈ M := by
      rw [← hsplit]
      exact List.mem_append_right _ hkv
    rcases mem_dictUpdate hmemM with h' | h'
    · exfalso
      have h1 : kv.1 ∈ newKeys cond (keys base) src := by
        rw [← hkeysDrop]
        exact List.mem_map.mpr ⟨kv, hkv, rfl⟩
      exact newKeys_not_mem cond _ src kv.1 h1 (List.mem_map.mpr ⟨kv, h', rfl⟩)
    · exact h'.1
  have hkeysEq : keys (dictUpdate cond base M) = keys M := by
    rw [keys_dictUpdate, hkeysM]
    congr 1
    have h1 : newKeys cond (keys base) M =
        newKeys cond (keys base) (List.drop base.length M) := by
      conv_lhs => rw [← hsplit]
      refine newKeys_append_of_mem cond _ _ ?_
      intro kv hkv
      rw [← hkeysTake]
      exact List.mem_map.mpr ⟨kv, hkv, rfl⟩
    rw [h1, newKeys_all_cond cond hcondDrop ?_ (keys base) ?_, hkeysDrop]
    · rw [hkeysDrop]
      have h2 : (keys base ++ newKeys cond (keys base) src).Nodup :=
        nodup_append_newKeys cond src hnd
      exact (List.nodup_append.mp h2).2.1
    · rw [hkeysDrop]
      exact fun x hx => newKeys_not_mem cond _ src x hx
  have hgetEq : ∀ k, dictGet? (dictUpdate cond base M) k = dictGet? M k := by
    intro k
    rw [dictGet?_dictUpdate]
    cases hMk : dictGet? M k with
    | none =>
      have hkM : k ∉ keys M := (dictGet?_eq_none_iff _ _).mp hMk
      have hkB : k ∉ keys base := by
        rw [hkeysM] at hkM
        exact fun hc => hkM (List.mem_append_left _ hc)
      rw [lastVal_of_not_mem _ hkM, (dictGet?_eq_none_iff _ _).mpr hkB]
    | some v =>
      by_cases hc : cond k v = true
      · rw [lastVal_of_get hndM hMk, if_pos hc]
      · rw [lastVal_of_get hndM hMk, if_neg hc]
        have h1 : lastVal cond k (dictGet? base k) src = some v := by
          rw [← dictGet?_dictUpdate, ← hM, hMk]
        rcases lastVal_some h1 with h' | h'
        · exact h'
        · exact (hc h'.1).elim
  exact dict_ext (hkeysEq ▸ hndM) hkeysEq hgetEq

theorem dictGet?_isSome_of_mem_keys {α : Type u} {β : Type v} [DecidableEq α]
    {d : List (α × β)} {k : α} (h : k ∈ keys d) :
    ∃ v, dictGet? d k = some v := by
  cases hv : dictGet? d k with
  | none => exact absurd ((dictGet?_eq_none_iff d k).mp hv) (by simpa using h)
  | some v => exact ⟨v, rfl⟩

theorem mem_keys_of_dictGet?_some {α : Type u} {β : Type v} [DecidableEq α]
    {d : List (α × β)} {k : α} {v : β} (h : dictGet? d k = some v) :
    k ∈ keys d := List.mem_map.mpr ⟨(k, v), dictGet?_mem h, rfl⟩

end PyDict

theorem charsLt_eq : ∀ x y : List Char,
    charsLt x y = false → charsLt y x = false → x = y
  | [], [], _, _ => rfl
  | [], _ :: _, h1, _ => by simp [charsLt] at h1
  | _ :: _, [], _, h2 => by simp [charsLt] at h2
  | a :: as, b :: bs, h1, h2 => by
    rw [charsLt] at h1 h2
    by_cases hab : a < b
    · rw [if_pos hab] at h1
      exact absurd h1 (by simp)
    · rw [if_neg hab] at h1
      by_cases hba : b < a
      · rw [if_pos hba] at h2
        exact absurd h2 (by simp)
      · rw [if_neg hba] at h1
        rw [if_neg hba, if_neg hab] at h2
        obtain rfl : a = b := le_antisymm (le_of_not_lt hba) (le_of_not_lt hab)
        rw [charsLt_eq as bs h1 h2]

theorem charsLt_trans : ∀ x y z : List Char,
    charsLt x y = true → charsLt y z = true → charsLt x z = true
  | [], [], _, h1, _ => by simp [charsLt] at h1
  | [], _ :: _, [], _, h2 => by simp [charsLt] at h2
  | [], _ :: _, _ :: _, _, _ => rfl
  | _ :: _, [], _, h1, _ => by simp [charsLt] at h1
  | _ :: _, _ :: _, [], _, h2 => by simp [charsLt] at h2
  | a :: as, b :: bs, c :: cs, h1, h2 => by
    rw [charsLt] at h1 h2 ⊢
    by_cases hab : a < b
    · rw [if_pos hab] at h1
      by_cases hbc : b < c
      · rw [if_pos (lt_trans hab hbc)]
      · rw [if_neg hbc] at h2
        by_cases hcb : c < b
        · rw [if_pos hcb] at h2
          exact absurd h2 (by simp)
        · obtain rfl : b = c := le_antisymm (le_of_not_lt hcb) (le_of_not_lt hbc)
          rw [if_pos hab]
    · rw [if_neg hab] at h1
      by_cases hba : b < a
      · rw [if_pos hba] at h1
        exact absurd h1 (by simp)
      · rw [if_neg hba] at h1
        obtain rfl : a = b := le_antisymm (le_of_not_lt hba) (le_of_not_lt hab)
        by_cases hac : a < c
        · rw [if_pos hac]
        · rw [if_neg hac] at h2 ⊢
          by_cases hca : c < a
          · rw [if_pos hca] at h2
            exact absurd h2 (by simp)
          · rw [if_neg hca] at h2 ⊢
            exact charsLt_trans as bs cs h1 h2

theorem strLt_eq {s t : String} (h1 : strLt s t = false)
    (h2 : strLt t s = false) : s = t := by
  have h : s.data = t.data := charsLt_eq _ _ h1 h2
  cases s with
  | mk ds =>
    cases t with
    | mk dt => exact congrArg String.mk (by simpa using h)

theorem strLt_trans {s t u : String} (h1 : strLt s t = true)
    (h2 : strLt t u = true) : strLt s u = true :=
  charsLt_trans _ _ _ h1 h2

namespace TocUtils

theorem circledVal?_isDigit {c : Char} {n : Nat}
    (h : circledVal? c = some n) : c.isDigit = false := by
  have hmem : (c, n) ∈ numeral_map := PyDict.dictGet?_mem h
  have hall : ∀ p ∈ numeral_map, (Prod.fst p).isDigit = false := by decide
  exact hall (c, n) hmem

theorem isCircled_isDigit {c : Char} (h : isCircled c = true) :
    c.isDigit = false := by
  rw [isCircled, Option.isSome_iff_exists] at h
  obtain ⟨n, hn⟩ := h
  exact circledVal?_isDigit hn

theorem isDigit_isCircled {c : Char} (h : c.isDigit = true) :
    isCircled c = false := by
  by_contra hc
  have := isCircled_isDigit (Bool.of_not_eq_false hc)
  rw [h] at this
  exact Bool.noConfusion this

theorem pySplit_ne_nil (cs : List Char) : pySplit cs ≠ [] := by
  cases cs with
  | nil => simp [pySplit]
  | cons c rest =>
    rw [pySplit]
    split
    · simp
    · split
      · split
        · split <;> simp
        · simp
      · split <;> simp

theorem pySplit_flatten (cs : List Char) : (pySplit cs).flatten = cs := by
  induction cs with
  | nil => simp [pySplit]
  | cons c rest ih =>
    rw [pySplit]
    split
    · simpa using ih
    · split
      · split
        · rename_i d ds rest' hds
          have hrest : d :: (ds ++ rest'.flatten) = rest := by
            have h1 : (([] : List Char) :: (d :: ds) :: rest').flatten = rest := by
              rw [← hds]; exact ih
            simpa using h1
          split
          · simp [← hrest]
          · rw [hds]
            simp [← hrest]
        · simpa using ih
      · rcases h : pySplit rest with _ | ⟨t, ts⟩
        · exact absurd h (pySplit_ne_nil rest)
        · rw [h] at ih
          simpa using ih

@[simp] theorem goodAlt_true_nil : GoodAlt true [] ↔ False := Iff.rfl

@[simp] theorem goodAlt_false_nil : GoodAlt false [] ↔ True := Iff.rfl

@[simp] theorem goodAlt_true_cons (t : List Char) (rest : List (List Char)) :
    GoodAlt true (t :: rest) ↔
      (∀ c ∈ t, c.isDigit = false ∧ isCircled c = false) ∧ GoodAlt false rest :=
  Iff.rfl

@[simp] theorem goodAlt_false_cons (m : List Char) (rest : List (List Char)) :
    GoodAlt false (m :: rest) ↔
      ((m ≠ [] ∧ ∀ c ∈ m, c.isDigit = true) ∨
        (∃ c, isCircled c = true ∧ m = [c])) ∧ GoodAlt true rest :=
  Iff.rfl

theorem goodAlt_pySplit (cs : List Char) : GoodAlt true (pySplit cs) := by
  induction cs with
  | nil => exact (goodAlt_true_cons _ _).mpr ⟨by simp, trivial⟩
  | cons c rest ih =>
    rw [pySplit]
    split
    · rename_i hcirc
      simp only [goodAlt_true_cons, goodAlt_false_cons]
      exact ⟨by simp, Or.inr ⟨c, hcirc, rfl⟩, ih⟩
    · rename_i hnotcirc
      split
      · rename_i hdig
        split
        · rename_i d ds rest' hds
          rw [hds] at ih
          rw [goodAlt_true_cons, goodAlt_false_cons] at ih
          obtain ⟨-, hm, hrest'⟩ := ih
          split
          · rename_i hddig
            simp only [goodAlt_true_cons, goodAlt_false_cons]
            refine ⟨by simp, Or.inl ⟨by simp, ?_⟩, hrest'⟩
            intro x hx
            rcases List.mem_cons.mp hx with rfl | hx'
            · exact hdig
            · rcases hm with ⟨-, hall⟩ | ⟨c', hc', heq⟩
              · exact hall x hx'
              · exfalso
                have hd : d = c' := by injection heq
                rw [hd, isCircled_isDigit hc'] at hddig
                exact Bool.noConfusion hddig
          · rw [hds]
            simp only [goodAlt_true_cons, goodAlt_false_cons]
            exact ⟨by simp, Or.inl ⟨by simp, by simpa using hdig⟩, by simp, hm, hrest'⟩
        · rename_i hmatch
          simp only [goodAlt_true_cons, goodAlt_false_cons]
          exact ⟨by simp, Or.inl ⟨by simp, by simpa using hdig⟩, ih⟩
      · rename_i hnotdig
        rcases h : pySplit rest with _ | ⟨t, ts⟩
        · exact absurd h (pySplit_ne_nil rest)
        · rw [h] at ih
          rw [goodAlt_true_cons] at ih
          obtain ⟨ht, hts⟩ := ih
          rw [goodAlt_true_cons]
          refine ⟨?_, hts⟩
          intro x hx
          rcases List.mem_cons.mp hx with rfl | hx'
          · exact ⟨Bool.of_not_eq_true hnotdig, Bool.of_not_eq_true hnotcirc⟩
          · exact ht x hx'

theorem goodFrag_getD : ∀ (i : Nat) (l : List (List Char)), GoodAlt true l →
    (i % 2 = 0 → ∀ c ∈ l.getD i [], c.isDigit = false ∧ isCircled c = false) ∧
    (i % 2 = 1 → ∀ c ∈ l.getD i [], c.isDigit = true ∨ isCircled c = true) := by
  intro i
  induction i using Nat.strong_induction_on with
  | _ i ih =>
    intro l hl
    match i, l with
    | _, [] => exact absurd hl (by simp)
    | 0, t :: rest =>
      obtain ⟨h1, -⟩ := (goodAlt_true_cons _ _).mp hl
      refine ⟨fun _ c hc => h1 c (by simpa using hc), fun h => by simp at h⟩
    | 1, t :: rest =>
      obtain ⟨-, h2⟩ := (goodAlt_true_cons _ _).mp hl
      refine ⟨fun h => by simp at h, fun _ c hc => ?_⟩
      cases rest with
      | nil => simp at hc
      | cons m rest' =>
        obtain ⟨hm, -⟩ := (goodAlt_false_cons _ _).mp h2
        have hc' : c ∈ m := by simpa using hc
        rcases hm with ⟨-, hall⟩ | ⟨c', hcirc, rfl⟩
        · exact Or.inl (hall c hc')
        · obtain rfl : c = c' := List.mem_singleton.mp hc'
          exact Or.inr hcirc
    | (n + 2), t :: rest =>
      obtain ⟨-, h2⟩ := (goodAlt_true_cons _ _).mp hl
      cases rest with
      | nil =>
        constructor <;> intro _ c hc <;> simp [List.getD] at hc
      | cons m rest' =>
        obtain ⟨-, hrest'⟩ := (goodAlt_false_cons _ _).mp h2
        have h1 : (t :: m :: rest').getD (n + 2) [] = rest'.getD n [] := rfl
        have h3 := ih n (by omega) rest' hrest'
        rw [h1]
        constructor
        · intro hpar
          exact h3.1 (by omega)
        · intro hpar
          exact h3.2 (by omega)

theorem goodMatch_shape : ∀ (i : Nat) (l : List (List Char)), GoodAlt true l →
    i % 2 = 1 → i < l.length →
    ((l.getD i [] ≠ [] ∧ ∀ c ∈ l.getD i [], c.isDigit = true) ∨
      (∃ c, isCircled c = true ∧ l.getD i [] = [c])) := by
  intro i
  induction i using Nat.strong_induction_on with
  | _ i ih =>
    intro l hl hpar hlen
    match i, l with
    | _, [] => exact absurd hl (by simp)
    | 0, t :: rest => simp at hpar
    | 1, t :: rest =>
      obtain ⟨-, h2⟩ := (goodAlt_true_cons _ _).mp hl
      cases rest with
      | nil => simp at hlen
      | cons m rest' => exact ((goodAlt_false_cons _ _).mp h2).1
    | (n + 2), t :: rest =>
      obtain ⟨-, h2⟩ := (goodAlt_true_cons _ _).mp hl
      cases rest with
      | nil => simp at hlen
      | cons m rest' =>
        obtain ⟨-, hrest'⟩ := (goodAlt_false_cons _ _).mp h2
        have h1 : (t :: m :: rest').getD (n + 2) [] = rest'.getD n [] := rfl
        rw [h1]
        refine ih n (by omega) rest' hrest' (by omega) ?_
        simp at hlen
        omega

theorem circledStrVal?_eq_none {t : List Char}
    (h : ∀ c ∈ t, isCircled c = false) : circledStrVal? t = Option.none := by
  match t with
  | [] => rfl
  | [c] =>
    have := h c (by simp)
    rw [circledStrVal?]
    rw [isCircled] at this
    exact Option.not_isSome_iff_eq_none.mp (by simp [this])
  | c :: c' :: rest => rfl

theorem isDigit_bounds {c : Char} (h : c.isDigit = true) :
    48 ≤ c.toNat ∧ c.toNat ≤ 57 := by
  simp [Char.isDigit] at h
  exact h

theorem pyDecVal?_ascii {c : Char} (h : c.isDigit = true) :
    pyDecVal? c = some (c.toNat - 48) := by
  obtain ⟨h1, h2⟩ := isDigit_bounds h
  rw [pyDecVal?, decStarts, decValScan, if_pos ⟨h1, by omega⟩]

theorem pyCharIsDigit_ascii {c : Char} (h : c.isDigit = true) :
    pyCharIsDigit c = true := by
  rw [pyCharIsDigit, pyDecVal?_ascii h]
  rfl

theorem pyIsDigit_ascii {t : List Char} (h1 : t ≠ [])
    (h2 : ∀ c ∈ t, c.isDigit = true) : pyIsDigit t = true := by
  rw [pyIsDigit]
  cases t with
  | nil => exact absurd rfl h1
  | cons c rest =>
    simp only [List.isEmpty_cons, Bool.not_false, Bool.true_and]
    exact List.all_eq_true.mpr (fun x hx => pyCharIsDigit_ascii (h2 x hx))

theorem pyIntAux_ascii : ∀ (t : List Char) (acc : Nat),
    (∀ c ∈ t, c.isDigit = true) →
    pyIntAux t acc =
      some (t.foldl (fun a c => a * 10 + (c.toNat - '0'.toNat)) acc)
  | [], acc, _ => rfl
  | c :: rest, acc, h => by
    rw [pyIntAux, pyDecVal?_ascii (h c (by simp)), List.foldl_cons]
    exact pyIntAux_ascii rest _ (fun x hx => h x (List.mem_cons_of_mem c hx))

theorem pyInt?_ascii {t : List Char} (h1 : t ≠ [])
    (h2 : ∀ c ∈ t, c.isDigit = true) : pyInt? t = some (digitsVal t) := by
  rw [pyInt?, if_neg (by simpa using h1), pyIntAux_ascii t 0 h2, digitsVal]

theorem pyIntAux_dec : ∀ {t : List Char} {acc n : Nat},
    pyIntAux t acc = some n → ∀ c ∈ t, (pyDecVal? c).isSome = true := by
  intro t
  induction t with
  | nil => intro acc n _ c hc; simp at hc
  | cons d rest ih =>
    intro acc n h c hc
    rw [pyIntAux] at h
    cases hd : pyDecVal? d with
    | none => rw [hd] at h; exact Option.noConfusion h
    | some v =>
      rw [hd] at h
      rcases List.mem_cons.mp hc with rfl | hc'
      · rw [hd]; rfl
      · exact ih h c hc'

theorem pyInt?_isDigit {t : List Char} {n : Nat} (h : pyInt? t = some n) :
    pyIsDigit t = true := by
  rw [pyInt?] at h
  by_cases he : t.isEmpty = true
  · rw [if_pos he] at h; exact Option.noConfusion h
  · rw [if_neg he] at h
    have he' : t.isEmpty = false := Bool.of_not_eq_true he
    rw [pyIsDigit, he']
    simp only [Bool.not_false, Bool.true_and]
    refine List.all_eq_true.mpr (fun c hc => ?_)
    rw [pyCharIsDigit, pyIntAux_dec h c hc]
    rfl

theorem convert_not_digit {t : List Char}
    (h : ∀ c ∈ t, isCircled c = false) (hd : pyIsDigit t = false) :
    convert t = Except.ok (Frag.str (String.mk (pyLower t))) := by
  rw [convert, circledStrVal?_eq_none h]
  have : ¬ (pyIsDigit t = true) := by rw [hd]; exact Bool.false_ne_true
  rw [if_neg this]

theorem convert_pyint {t : List Char} {n : Nat}
    (h : ∀ c ∈ t, isCircled c = false) (hv : pyInt? t = some n) :
    convert t = Except.ok (Frag.int n) := by
  rw [convert, circledStrVal?_eq_none h, if_pos (pyInt?_isDigit hv), hv]

theorem convert_valueerror {t : List Char}
    (h : ∀ c ∈ t, isCircled c = false) (hd : pyIsDigit t = true)
    (hv : pyInt? t = Option.none) :
    convert t = Except.error "ValueError" := by
  rw [convert, circledStrVal?_eq_none h, if_pos hd, hv]

theorem convert_digits {t : List Char} (h1 : t ≠ [])
    (h2 : ∀ c ∈ t, c.isDigit = true) :
    convert t = Except.ok (Frag.int (digitsVal t)) :=
  convert_pyint (fun c hc => isDigit_isCircled (h2 c hc)) (pyInt?_ascii h1 h2)

theorem convert_circled {c : Char} {n : Nat} (h : circledVal? c = some n) :
    convert [c] = Except.ok (Frag.int n) := by
  rw [convert]
  have : circledStrVal? [c] = some n := h
  rw [this]

theorem convertAll_ok : ∀ {l : List (List Char)} {ks : List Frag},
    convertAll l = Except.ok ks →
    ks.length = l.length ∧
      ∀ i, i < l.length →
        convert (l.getD i []) = Except.ok (ks.getD i (Frag.str "")) := by
  intro l
  induction l with
  | nil =>
    intro ks h
    rw [convertAll] at h
    obtain rfl : ([] : List Frag) = ks := Except.ok.inj h
    exact ⟨rfl, fun i hi => absurd hi (by simp)⟩
  | cons t ts ih =>
    intro ks h
    rw [convertAll] at h
    cases hc : convert t with
    | error e => rw [hc] at h; exact Except.noConfusion h
    | ok f =>
      cases hr : convertAll ts with
      | error e => rw [hc, hr] at h; exact Except.noConfusion h
      | ok fs =>
        rw [hc, hr] at h
        obtain rfl : f :: fs = ks := Except.ok.inj h
        obtain ⟨hlen, hget⟩ := ih hr
        refine ⟨by simpa using hlen, fun i hi => ?_⟩
        cases i with
        | zero => simpa using hc
        | succ j =>
          have hj : j < ts.length := by simpa using hi
          simpa using hget j hj

theorem fragLt_eq {a b : Frag} (h1 : fragLt a b = false)
    (h2 : fragLt b a = false) : a = b := by
  cases a with
  | int m =>
    cases b with
    | int n =>
      simp only [fragLt, decide_eq_false_iff_not] at h1 h2
      have : m = n := le_antisymm (Nat.le_of_not_lt h2) (Nat.le_of_not_lt h1)
      rw [this]
    | str t => exact absurd h1 (by simp [fragLt])
  | str s =>
    cases b with
    | int n => exact absurd h2 (by simp [fragLt])
    | str t =>
      simp only [fragLt] at h1 h2
      rw [strLt_eq h1 h2]

theorem fragLt_trans {a b c : Frag} (h1 : fragLt a b = true)
    (h2 : fragLt b c = true) : fragLt a c = true := by
  cases a <;> cases b <;> cases c
  · simp only [fragLt, decide_eq_true_eq] at h1 h2 ⊢
    omega
  · rfl
  · exact absurd h2 (by simp [fragLt])
  · rfl
  · exact absurd h1 (by simp [fragLt])
  · exact absurd h1 (by simp [fragLt])
  · exact absurd h2 (by simp [fragLt])
  · simp only [fragLt] at h1 h2 ⊢
    exact strLt_trans h1 h2

theorem keyLe_total : ∀ x y : List Frag, keyLe x y = true ∨ keyLe y x = true
  | [], _ => Or.inl rfl
  | _ :: _, [] => Or.inr rfl
  | a :: as, b :: bs => by
    by_cases h1 : fragLt a b = true
    · exact Or.inl (by simp [keyLe, h1])
    · by_cases h2 : fragLt b a = true
      · exact Or.inr (by simp [keyLe, h2])
      · have h1' : fragLt a b = false := Bool.of_not_eq_true h1
        have h2' : fragLt b a = false := Bool.of_not_eq_true h2
        obtain rfl : a = b := fragLt_eq h1' h2'
        rcases keyLe_total as bs with h | h
        · exact Or.inl (by simp [keyLe, h1', h])
        · exact Or.inr (by simp [keyLe, h1', h])

theorem keyLe_trans : ∀ x y z : List Frag,
    keyLe x y = true → keyLe y z = true → keyLe x z = true
  | [], _, _, _, _ => rfl
  | _ :: _, [], _, h1, _ => by simp [keyLe] at h1
  | _ :: _, _ :: _, [], _, h2 => by simp [keyLe] at h2
  | a :: as, b :: bs, c :: cs, h1, h2 => by
    rw [keyLe] at h1 h2 ⊢
    by_cases hab : fragLt a b = true
    · rw [if_pos hab] at h1
      by_cases hbc : fragLt b c = true
      · rw [if_pos (fragLt_trans hab hbc)]
      · rw [if_neg hbc] at h2
        by_cases hcb : fragLt c b = true
        · rw [if_pos hcb] at h2
          exact absurd h2 (by simp)
        · obtain rfl : b = c :=
            fragLt_eq (Bool.of_not_eq_true hbc) (Bool.of_not_eq_true hcb)
          rw [if_pos hab]
    · rw [if_neg hab] at h1
      by_cases hba : fragLt b a = true
      · rw [if_pos hba] at h1
        exact absurd h1 (by simp)
      · obtain rfl : a = b :=
          fragLt_eq (Bool.of_not_eq_true hab) (Bool.of_not_eq_true hba)
        rw [if_neg hab] at h1
        by_cases hac : fragLt a c = true
        · rw [if_pos hac]
        · rw [if_neg hac] at h2 ⊢
          by_cases hca : fragLt c a = true
          · rw [if_pos hca] at h2
            exact absurd h2 (by simp)
          · rw [if_neg hca] at h2 ⊢
            exact keyLe_trans as bs cs h1 h2

instance : IsTotal String keyRel := ⟨fun a b => keyLe_total _ _⟩

instance : IsTrans String keyRel := ⟨fun a b c => keyLe_trans _ _ _⟩

end TocUtils

namespace EntryDetector

open PyDict

/-- Any hit in the `old_files` lookup is one of the old file records, keyed
by its own filename value. -/
theorem old_files_lookup {files : List FileDict} {k : PyVal} {of : FileDict}
    (h : dictGet? (old_files files) k = some of) :
    of ∈ files ∧ pyGet of "filename" = k := by
  have hmem := dictGet?_mem h
  rcases mem_dictUpdate hmem with h' | h'
  · simp at h'
  · obtain ⟨f, hf, heq⟩ := List.mem_map.mp h'.2
    obtain ⟨h1, h2⟩ : pyGet f "filename" = k ∧ f = of := by
      constructor <;> [exact congrArg Prod.fst heq; exact congrArg Prod.snd heq]
    subst h2
    exact ⟨hf, h1⟩

/-- The keys of the `old_files` comprehension input pairs. -/
theorem keys_filename_pairs (files : List FileDict) :
    keys (files.map (fun f => (pyGet f "filename", f))) =
      files.map (fun f => pyGet f "filename") := by
  rw [keys, List.map_map]
  rfl

/-- With pairwise-distinct filenames, `old_files` maps each record's
filename back to that record. -/
theorem old_files_get_of_nodup {files : List FileDict}
    (hnd : (files.map (fun f => pyGet f "filename")).Nodup)
    {f : FileDict} (hf : f ∈ files) :
    dictGet? (old_files files) (pyGet f "filename") = some f := by
  have hndk : (keys (files.map (fun g => (pyGet g "filename", g)))).Nodup := by
    rw [keys_filename_pairs]
    exact hnd
  have hpair : (pyGet f "filename", f) ∈
      files.map (fun g => (pyGet g "filename", g)) :=
    List.mem_map.mpr ⟨f, hf, rfl⟩
  have hget := dictGet?_of_mem_nodup hndk hpair
  rw [old_files, dictGet?_dictUpdate, lastVal_of_get hndk hget]
  simp

/-- Non-empty old values win in a merged file record. -/
theorem fileMerge_preserved {nf of : FileDict} {k : String} {v : PyVal}
    (hnd : (keys of).Nodup) (hget : dictGet? of k = some v)
    (htr : v.truthy = true) :
    dictGet? (dictUpdate fileCond nf of) k = some v := by
  rw [dictGet?_dictUpdate, lastVal_of_get hnd hget]
  simp [fileCond, htr]

/-- Keys that are absent or empty in the old record keep the freshly
scanned value. -/
theorem fileMerge_fresh {nf of : FileDict} {k : String}
    (hnd : (keys of).Nodup)
    (h : dictGet? of k = Option.none ∨
      ∃ v, dictGet? of k = some v ∧ v.truthy = false) :
    dictGet? (dictUpdate fileCond nf of) k = dictGet? nf k := by
  rw [dictGet?_dictUpdate]
  rcases h with h | ⟨v, hget, htr⟩
  · rw [lastVal_of_not_mem _ ((dictGet?_eq_none_iff _ _).mp h)]
  · rw [lastVal_of_get hnd hget]
    simp [fileCond, htr]

/-- Merging never changes the filename of a record matched in `old_files`
built from records with duplicate-free keys. -/
theorem pyGet_filename_mergeOneFile {files : List FileDict}
    (hnd : ∀ f ∈ files, (keys f).Nodup) (nf : FileDict) :
    pyGet (mergeOneFile (old_files files) nf) "filename" = pyGet nf "filename" := by
  rw [mergeOneFile]
  cases hlk : dictGet? (old_files files) (pyGet nf "filename") with
  | none => rfl
  | some of =>
    obtain ⟨hofmem, hofname⟩ := old_files_lookup hlk
    have hndof := hnd of hofmem
    cases hget : dictGet? of "filename" with
    | none =>
      rw [pyGet, dictGet?_dictUpdate,
        lastVal_of_not_mem _ ((dictGet?_eq_none_iff _ _).mp hget)]
      rfl
    | some v =>
      have hv : v = pyGet nf "filename" := by
        rw [← hofname, pyGet, hget]
        rfl
      rw [pyGet, dictGet?_dictUpdate, lastVal_of_get hndof hget]
      by_cases htr : v.truthy = true
      · rw [if_pos (show fileCond "filename" v = true from htr)]
        simp only [Option.getD_some]
        exact hv
      · rw [if_neg (show ¬ (fileCond "filename" v = true) from htr)]
        rfl

/-- The filenames of the merged file list are those of the scan. -/
theorem merged_filenames {old new : Config} {dir : String}
    (hnd : ∀ f ∈ old.files, (keys f).Nodup) :
    ((merge_configs (some old) new dir).1.files).map (fun f => pyGet f "filename") =
      new.files.map (fun f => pyGet f "filename") := by
  show ((new.files.map (mergeOneFile (old_files old.files))).map
      (fun f => pyGet f "filename")) = _
  rw [List.map_map]
  exact List.map_congr_left (fun f hf => pyGet_filename_mergeOneFile hnd f)

end EntryDetector

namespace FilesProcessor

open TocUtils

theorem processLoop_inv (fmt : FileDict → String) :
    ∀ (l : List FileDict) (e1 e2 e3 e4 e5 e6 : List (String × PyVal)),
    processLoop fmt
      [(PyVal.str "document", [("0000", e1)]), (PyVal.str "image", [("0000", e2)]),
       (PyVal.str "video", [("0000", e3)]), (PyVal.str "audio", [("0000", e4)]),
       (PyVal.str "webpage", [("0000", e5)]), (PyVal.str "other", [("0000", e6)])] l =
      [(PyVal.str "document", [("0000", e1 ++ entriesOfType fmt "document" l)]),
       (PyVal.str "image", [("0000", e2 ++ entriesOfType fmt "image" l)]),
       (PyVal.str "video", [("0000", e3 ++ entriesOfType fmt "video" l)]),
       (PyVal.str "audio", [("0000", e4 ++ entriesOfType fmt "audio" l)]),
       (PyVal.str "webpage", [("0000", e5 ++ entriesOfType fmt "webpage" l)]),
       (PyVal.str "other", [("0000", e6 ++ entriesOfType fmt "other" l)])]
  | [], e1, e2, e3, e4, e5, e6 => by
      simp [processLoop, entriesOfType]
  | f :: rest, e1, e2, e3, e4, e5, e6 => by
      rw [processLoop]
      by_cases h1 : pyGet f "type" = PyVal.str "document"
      · have hstep : processStep fmt
            [(PyVal.str "document", [("0000", e1)]),
             (PyVal.str "image", [("0000", e2)]),
             (PyVal.str "video", [("0000", e3)]),
             (PyVal.str "audio", [("0000", e4)]),
             (PyVal.str "webpage", [("0000", e5)]),
             (PyVal.str "other", [("0000", e6)])] f =
            [(PyVal.str "document", [("0000", e1 ++ [entryOf fmt f])]),
             (PyVal.str "image", [("0000", e2)]),
             (PyVal.str "video", [("0000", e3)]),
             (PyVal.str "audio", [("0000", e4)]),
             (PyVal.str "webpage", [("0000", e5)]),
             (PyVal.str "other", [("0000", e6)])] := by
          rw [processStep, h1]
          simp [PyDict.dictGet?, PyDict.dictSet, PyDict.keys, PyDict.setAll]
        rw [hstep, processLoop_inv fmt rest]
        simp [entriesOfType, h1]
      by_cases h2 : pyGet f "type" = PyVal.str "image"
      · have hstep : processStep fmt
            [(PyVal.str "document", [("0000", e1)]),
             (PyVal.str "image", [("0000", e2)]),
             (PyVal.str "video", [("0000", e3)]),
             (PyVal.str "audio", [("0000", e4)]),
             (PyVal.str "webpage", [("0000", e5)]),
             (PyVal.str "other", [("0000", e6)])] f =
            [(PyVal.str "document", [("0000", e1)]),
             (PyVal.str "image", [("0000", e2 ++ [entryOf fmt f])]),
             (PyVal.str "video", [("0000", e3)]),
             (PyVal.str "audio", [("0000", e4)]),
             (PyVal.str "webpage", [("0000", e5)]),
             (PyVal.str "other", [("0000", e6)])] := by
          rw [processStep, h2]
          simp [PyDict.dictGet?, PyDict.dictSet, PyDict.keys, PyDict.setAll]
        rw [hstep, processLoop_inv fmt rest]
        simp [entriesOfType, h2]
      by_cases h3 : pyGet f "type" = PyVal.str "video"
      · have hstep : processStep fmt
            [(PyVal.str "document", [("0000", e1)]),
             (PyVal.str "image", [("0000", e2)]),
             (PyVal.str "video", [("0000", e3)]),
             (PyVal.str "audio", [("0000", e4)]),
             (PyVal.str "webpage", [("0000", e5)]),
             (PyVal.str "other", [("0000", e6)])] f =
            [(PyVal.str "document", [("0000", e1)]),
             (PyVal.str "image", [("0000", e2)]),
             (PyVal.str "video", [("0000", e3 ++ [entryOf fmt f])]),
             (PyVal.str "audio", [("0000", e4)]),
             (PyVal.str "webpage", [("0000", e5)]),
             (PyVal.str "other", [("0000", e6)])] := by
          rw [processStep, h3]
          simp [PyDict.dictGet?, PyDict.dictSet, PyDict.keys, PyDict.setAll]
        rw [hstep, processLoop_inv fmt rest]
        simp [entriesOfType, h3]
      by_cases h4 : pyGet f "type" = PyVal.str "audio"
      · have hstep : processStep fmt
            [(PyVal.str "document", [("0000", e1)]),
             (PyVal.str "image", [("0000", e2)]),
             (PyVal.str "video", [("0000", e3)]),
             (PyVal.str "audio", [("0000", e4)]),
             (PyVal.str "webpage", [("0000", e5)]),
             (PyVal.str "other", [("0000", e6)])] f =
            [(PyVal.str "document", [("0000", e1)]),
             (PyVal.str "image", [("0000", e2)]),
             (PyVal.str "video", [("0000", e3)]),
             (PyVal.str "audio", [("0000", e4 ++ [entryOf fmt f])]),
             (PyVal.str "webpage", [("0000", e5)]),
             (PyVal.str "other", [("0000", e6)])] := by
          rw [processStep, h4]
          simp [PyDict.dictGet?, PyDict.dictSet, PyDict.keys, PyDict.setAll]
        rw [hstep, processLoop_inv fmt rest]
        simp [entriesOfType, h4]
      by_cases h5 : pyGet f "type" = PyVal.str "webpage"
      · have hstep : processStep fmt
            [(PyVal.str "document", [("0000", e1)]),
             (PyVal.str "image", [("0000", e2)]),
             (PyVal.str "video", [("0000", e3)]),
             (PyVal.str "audio", [("0000", e4)]),
             (PyVal.str "webpage", [("0000", e5)]),
             (PyVal.str "other", [("0000", e6)])] f =
            [(PyVal.str "document", [("0000", e1)]),
             (PyVal.str "image", [("0000", e2)]),
             (PyVal.str "video", [("0000", e3)]),
             (PyVal.str "audio", [("0000", e4)]),
             (PyVal.str "webpage", [("0000", e5 ++ [entryOf fmt f])]),
             (PyVal.str "other", [("0000", e6)])] := by
          rw [processStep, h5]
          simp [PyDict.dictGet?, PyDict.dictSet, PyDict.keys, PyDict.setAll]
        rw [hstep, processLoop_inv fmt rest]
        simp [entriesOfType, h5]
      by_cases h6 : pyGet f "type" = PyVal.str "other"
      · have hstep : processStep fmt
            [(PyVal.str "document", [("0000", e1)]),
             (PyVal.str "image", [("0000", e2)]),
             (PyVal.str "video", [("0000", e3)]),
             (PyVal.str "audio", [("0000", e4)]),
             (PyVal.str "webpage", [("0000", e5)]),
             (PyVal.str "other", [("0000", e6)])] f =
            [(PyVal.str "document", [("0000", e1)]),
             (PyVal.str "image", [("0000", e2)]),
             (PyVal.str "video", [("0000", e3)]),
             (PyVal.str "audio", [("0000", e4)]),
             (PyVal.str "webpage", [("0000", e5)]),
             (PyVal.str "other", [("0000", e6 ++ [entryOf fmt f])])] := by
          rw [processStep, h6]
          simp [PyDict.dictGet?, PyDict.dictSet, PyDict.keys, PyDict.setAll]
        rw [hstep, processLoop_inv fmt rest]
        simp [entriesOfType, h6]
      · have hstep : processStep fmt
            [(PyVal.str "document", [("0000", e1)]),
             (PyVal.str "image", [("0000", e2)]),
             (PyVal.str "video", [("0000", e3)]),
             (PyVal.str "audio", [("0000", e4)]),
             (PyVal.str "webpage", [("0000", e5)]),
             (PyVal.str "other", [("0000", e6)])] f =
            [(PyVal.str "document", [("0000", e1)]),
             (PyVal.str "image", [("0000", e2)]),
             (PyVal.str "video", [("0000", e3)]),
             (PyVal.str "audio", [("0000", e4)]),
             (PyVal.str "webpage", [("0000", e5)]),
             (PyVal.str "other", [("0000", e6)])] := by
          rw [processStep]
          have h1x : ¬ (PyVal.str "document" = pyGet f "type") := fun hc => h1 hc.symm
          have h2x : ¬ (PyVal.str "image" = pyGet f "type") := fun hc => h2 hc.symm
          have h3x : ¬ (PyVal.str "video" = pyGet f "type") := fun hc => h3 hc.symm
          have h4x : ¬ (PyVal.str "audio" = pyGet f "type") := fun hc => h4 hc.symm
          have h5x : ¬ (PyVal.str "webpage" = pyGet f "type") := fun hc => h5 hc.symm
          have h6x : ¬ (PyVal.str "other" = pyGet f "type") := fun hc => h6 hc.symm
          have hnone : PyDict.dictGet?
              ([(PyVal.str "document", [("0000", e1)]),
             (PyVal.str "image", [("0000", e2)]),
             (PyVal.str "video", [("0000", e3)]),
             (PyVal.str "audio", [("0000", e4)]),
             (PyVal.str "webpage", [("0000", e5)]),
             (PyVal.str "other", [("0000", e6)])] :
                List (PyVal × List (String × List (String × PyVal)))) (pyGet f "type") =
              Option.none := by
            simp [PyDict.dictGet?, h1x, h2x, h3x, h4x, h5x, h6x]
          rw [hnone]
        rw [hstep, processLoop_inv fmt rest]
        simp [entriesOfType, h1, h2, h3, h4, h5, h6]

end FilesProcessor

namespace Md5List

open PyDict

theorem dupWarnAux_mem :
    ∀ (infos : List Md5Info) (seen : List (String × String)) (j : Nat)
      (hj : j < infos.length),
      (infos[j].md5 ∈ PyDict.keys seen ∨
        infos[j].md5 ∈ (infos.take j).map Md5Info.md5) →
      ∃ w ∈ dupWarnAux seen infos, w.2 = infos[j].path
  | [], seen, j, hj, _ => absurd hj (by simp)
  | i :: rest, seen, 0, hj, hmem => by
      have hseen : i.md5 ∈ PyDict.keys seen := by
        rcases hmem with h | h
        · exact h
        · simp at h
      obtain ⟨first, hfirst⟩ := PyDict.dictGet?_isSome_of_mem_keys hseen
      refine ⟨(first, i.path), ?_, rfl⟩
      rw [dupWarnAux, hfirst]
      exact List.mem_cons_self _ _
  | i :: rest, seen, j + 1, hj, hmem => by
      have hj' : j < rest.length := by simpa using hj
      have hget : (i :: rest)[j + 1] = rest[j] := by simp
      rw [hget] at hmem ⊢
      rw [dupWarnAux]
      cases hfirst : PyDict.dictGet? seen i.md5 with
      | some first =>
        have hmem' : rest[j].md5 ∈ PyDict.keys seen ∨
            rest[j].md5 ∈ (rest.take j).map Md5Info.md5 := by
          rcases hmem with h | h
          · exact Or.inl h
          · rw [List.take_succ_cons, List.map_cons] at h
            rcases List.mem_cons.mp h with h' | h'
            · exact Or.inl (h' ▸ PyDict.mem_keys_of_dictGet?_some hfirst)
            · exact Or.inr h'
        obtain ⟨w, hw, hw2⟩ := dupWarnAux_mem rest seen j hj' hmem'
        exact ⟨w, List.mem_cons_of_mem _ hw, hw2⟩
      | none =>
        have hkeys : PyDict.keys (PyDict.dictSet seen i.md5 i.path) =
            PyDict.keys seen ++ [i.md5] := by
          have hnm : i.md5 ∉ PyDict.keys seen :=
            (PyDict.dictGet?_eq_none_iff _ _).mp hfirst
          rw [PyDict.keys_dictSet, if_neg hnm]
        have hmem' : rest[j].md5 ∈
              PyDict.keys (PyDict.dictSet seen i.md5 i.path) ∨
            rest[j].md5 ∈ (rest.take j).map Md5Info.md5 := by
          rw [hkeys]
          rcases hmem with h | h
          · exact Or.inl (List.mem_append_left _ h)
          · rw [List.take_succ_cons, List.map_cons] at h
            rcases List.mem_cons.mp h with h' | h'
            · exact Or.inl (List.mem_append_right _ (by simp [h']))
            · exact Or.inr h'
        exact dupWarnAux_mem rest _ j hj' hmem'

end Md5List

/-! ## Claim theorems -/

open TocUtils in
/-- C6 counterexample: the fullwidth digit `'１'` is unmatched by the split
pattern `([0-9]+|[①②③④⑤⑥⑦⑧⑨⑩])` — the whole string is a single
unmatched text fragment, no ASCII digit run and no circled numeral — yet
`natural_sort_key` converts it to the integer 1, not to its lowercased
text, because `str.isdigit` is true of it and `int()` parses it; and on the
superscript digit `'²'`, which `str.isdigit` accepts but `int()` cannot
parse, `natural_sort_key` raises `ValueError` instead of returning a key
at all.  This refutes the claim that every fragment other than an ASCII
digit run or circled numeral contributes its lowercased text. -/
theorem c6_counterexample :
    (pySplit "１".data = [['１']] ∧
      ('１' : Char).isDigit = false ∧ isCircled '１' = false ∧
      natural_sort_key "１" = Except.ok [Frag.int 1] ∧
      Frag.int 1 ≠ Frag.str (String.mk (pyLower ['１']))) ∧
    (pySplit "²".data = [['²']] ∧
      ('²' : Char).isDigit = false ∧ isCircled '²' = false ∧
      natural_sort_key "²" = Except.error "ValueError") := by
  refine ⟨⟨?_, ?_, ?_, ?_, ?_⟩, ?_, ?_, ?_, ?_⟩ <;> decide

open TocUtils in
/-- C6 (amended): `natural_sort_key` splits its input into fragments whose
concatenation is the input; fragments at even positions (the unmatched
text) contain no ASCII digit and no circled numeral, fragments at odd
positions (the matches) are nonempty ASCII digit runs, converted to their
integer value, or circled numerals ① – ⑩, converted to the integers
1 – 10; an unmatched fragment contributes its lowercased text unless every
character is a Unicode digit, in which case `int()` converts it to its
integer value when the digits are decimal and raises `ValueError`
otherwise; when no conversion raises, the key lists the converted
fragments in order.  In particular the keys of `"②"` and of `"2"` are
equal, with integer fragment 2. -/
theorem c6_amended :
    (∀ s : String,
      ((pySplit s.data).flatten = s.data) ∧
      (∀ i, i % 2 = 0 → ∀ c ∈ (pySplit s.data).getD i [],
          c.isDigit = false ∧ isCircled c = false) ∧
      (∀ i, i % 2 = 1 → i < (pySplit s.data).length →
          (((pySplit s.data).getD i [] ≠ [] ∧
              (∀ c ∈ (pySplit s.data).getD i [], c.isDigit = true) ∧
              convert ((pySplit s.data).getD i []) =
                Except.ok (Frag.int (digitsVal ((pySplit s.data).getD i [])))) ∨
            (∃ c n, (pySplit s.data).getD i [] = [c] ∧
              circledVal? c = some n ∧
              convert ((pySplit s.data).getD i []) =
                Except.ok (Frag.int n)))) ∧
      (∀ i, i % 2 = 0 →
          (pyIsDigit ((pySplit s.data).getD i []) = false →
            convert ((pySplit s.data).getD i []) =
              Except.ok (Frag.str
                (String.mk (pyLower ((pySplit s.data).getD i []))))) ∧
          (∀ n, pyInt? ((pySplit s.data).getD i []) = some n →
            convert ((pySplit s.data).getD i []) =
              Except.ok (Frag.int n)) ∧
          (pyIsDigit ((pySplit s.data).getD i []) = true →
            pyInt? ((pySplit s.data).getD i []) = Option.none →
            convert ((pySplit s.data).getD i []) =
              Except.error "ValueError")) ∧
      (∀ ks, natural_sort_key s = Except.ok ks →
          ks.length = (pySplit s.data).length ∧
          ∀ i, i < (pySplit s.data).length →
            convert ((pySplit s.data).getD i []) =
              Except.ok (ks.getD i (Frag.str "")))) ∧
    (natural_sort_key "②" =
        Except.ok [Frag.str "", Frag.int 2, Frag.str ""]) ∧
    (natural_sort_key "2" =
        Except.ok [Frag.str "", Frag.int 2, Frag.str ""]) ∧
    (∀ p ∈ numeral_map, natural_sort_key (String.mk [p.1]) =
        Except.ok [Frag.str "", Frag.int p.2, Frag.str ""]) ∧
    (natural_sort_key "a10b" =
        Except.ok [Frag.str "a", Frag.int 10, Frag.str "b"]) := by
  refine ⟨fun s => ?_, by decide, by decide, by decide, by decide⟩
  have hgood := goodAlt_pySplit s.data
  refine ⟨pySplit_flatten s.data,
    fun i hi => (goodFrag_getD i _ hgood).1 hi,
    fun i hi hlen => ?_, fun i hi => ?_, fun ks h => ?_⟩
  · have h := goodMatch_shape i _ hgood hi hlen
    rcases h with ⟨hne, hall⟩ | ⟨c, hcirc, hc⟩
    · exact Or.inl ⟨hne, hall, convert_digits hne hall⟩
    · obtain ⟨n, hn⟩ := Option.isSome_iff_exists.mp hcirc
      exact Or.inr ⟨c, n, hc, hn, by rw [hc, convert_circled hn]⟩
  · have hclean := (goodFrag_getD i _ hgood).1 hi
    have hcirc : ∀ c ∈ (pySplit s.data).getD i [], isCircled c = false :=
      fun c hc => (hclean c hc).2
    exact ⟨fun hd => convert_not_digit hcirc hd,
      fun n hn => convert_pyint hcirc hn,
      fun hd hv => convert_valueerror hcirc hd hv⟩
  · rw [natural_sort_key] at h
    exact convertAll_ok h

open TocUtils in
/-- C6 witness: `c6_amended` instantiated at `"a12b②"` (flattening and the
digit-run/circled disjunction at fragment 1), at `"１"` (a text fragment
made of a decimal digit converts to the integer 1) and at `"²"` (a text
fragment made of a non-decimal digit raises `ValueError`). -/
theorem c6_witness :
    ((pySplit "a12b②".data).flatten = "a12b②".data) ∧
    ((((pySplit "a12b②".data).getD 1 [] ≠ [] ∧
        (∀ c ∈ (pySplit "a12b②".data).getD 1 [], c.isDigit = true) ∧
        convert ((pySplit "a12b②".data).getD 1 []) =
          Except.ok (Frag.int (digitsVal ((pySplit "a12b②".data).getD 1 [])))) ∨
      (∃ c n, (pySplit "a12b②".data).getD 1 [] = [c] ∧
        circledVal? c = some n ∧
        convert ((pySplit "a12b②".data).getD 1 []) =
          Except.ok (Frag.int n)))) ∧
    (convert ((pySplit "１".data).getD 0 []) = Except.ok (Frag.int 1)) ∧
    (convert ((pySplit "²".data).getD 0 []) = Except.error "ValueError") := by
  refine ⟨(c6_amended.1 "a12b②").1,
    (c6_amended.1 "a12b②").2.2.1 1 (by decide) (by decide),
    ((c6_amended.1 "１").2.2.2.1 0 (by decide)).2.1 1 (by decide),
    ((c6_amended.1 "²").2.2.2.1 0 (by decide)).2.2 (by decide) (by decide)⟩

open TocUtils in
/-- C7: `natural_sort_key` is a deterministic function, and the stable sort
keyed by it is idempotent: an already-sorted list is returned unchanged,
and sorting a second time changes nothing. -/
theorem c7_natural_sort_key_stable_idempotent :
    (∀ s t : String, s = t → natural_sort_key s = natural_sort_key t) ∧
    (∀ l : List String, l.Sorted keyRel → pySortStrings l = l) ∧
    (∀ l : List String, pySortStrings (pySortStrings l) = pySortStrings l) := by
  refine ⟨fun s t h => by rw [h], fun l h => h.insertionSort_eq, fun l => ?_⟩
  exact (List.sorted_insertionSort keyRel l).insertionSort_eq

open TocUtils in
/-- C7 witness: `c7_natural_sort_key_stable_idempotent` applied to the
concrete sorted list `["a1", "a2", "a10"]`. -/
theorem c7_witness :
    natural_sort_key "a1" = natural_sort_key "a1" ∧
    pySortStrings ["a1", "a2", "a10"] = ["a1", "a2", "a10"] :=
  ⟨c7_natural_sort_key_stable_idempotent.1 "a1" "a1" rfl,
   c7_natural_sort_key_stable_idempotent.2.1 ["a1", "a2", "a10"] (by decide)⟩

open FilesProcessor in
/-- C2 counterexample: two file records of the same type `'document'` but
different years/archive dates are both appended to the single year bucket
`'0000'` of that type — they are not placed in different year buckets, so
the categories structure does not bucket by year. -/
theorem c2_counterexample :
    PyDict.dictGet?
      (process (fun _ => "E")
        [[("name", PyVal.str "a"), ("type", PyVal.str "document"),
          ("archived_date", PyVal.str "2001-01-01")],
         [("name", PyVal.str "b"), ("type", PyVal.str "document"),
          ("archived_date", PyVal.str "2002-02-02")]])
      (PyVal.str "document") =
    some [("0000",
      [("E", PyVal.str "2001-01-01"), ("E", PyVal.str "2002-02-02")])] := by
  decide

open FilesProcessor in
/-- C2 (amended): `FilesProcessor.process` buckets entries by file type
only; within each of the six types every entry — whatever its year — is
appended to the single year bucket keyed `'0000'`, in natural-sort order of
the file names. -/
theorem c2_amended (fmt : FileDict → String) (files : List FileDict) :
    ∀ t ∈ ["document", "image", "video", "audio", "webpage", "other"],
      PyDict.dictGet? (process fmt files) (PyVal.str t) =
        some [("0000", entriesOfType fmt t (files.insertionSort fileRel))] := by
  intro t ht
  have h := processLoop_inv fmt (files.insertionSort fileRel) [] [] [] [] [] []
  rw [process]
  unfold initCategories
  rw [h]
  fin_cases ht <;> simp [PyDict.dictGet?]

open FilesProcessor in
/-- C2 witness: `c2_amended` instantiated at the type `'document'` and a
concrete two-record input. -/
theorem c2_amended_witness :
    PyDict.dictGet?
      (process (fun _ => "E")
        [[("name", PyVal.str "a"), ("type", PyVal.str "document"),
          ("archived_date", PyVal.str "2001-01-01")],
         [("name", PyVal.str "b"), ("type", PyVal.str "document"),
          ("archived_date", PyVal.str "2002-02-02")]])
      (PyVal.str "document") =
    some [("0000", entriesOfType (fun _ => "E") "document"
      ([[("name", PyVal.str "a"), ("type", PyVal.str "document"),
          ("archived_date", PyVal.str "2001-01-01")],
        [("name", PyVal.str "b"), ("type", PyVal.str "document"),
          ("archived_date", PyVal.str "2002-02-02")]].insertionSort fileRel))] :=
  c2_amended _ _ "document" (by decide)

/-- C3 counterexample: an error while reading a single directory's
`config.yml` in catalog generation (`src/config/catalog.py`,
`find_config_files`) is not survived: the run terminates via `sys.exit(1)`
(`Except.error`) even though another directory was still to be processed,
contradicting the claim that no per-file or per-directory error terminates
the run. -/
theorem c3_counterexample :
    Catalog.find_config_files
      [("./a", ReadResult.err), ("./b", ReadResult.ok (some "d"))] =
      Except.error "sys.exit(1)" := rfl

/-- C3 (amended): per-item error handling is best-effort in some stages but
not in all.  `DirectoryProcessor.process` catches a failed subdirectory
config read and still emits an entry for every subdirectory;
`find_md5_in_config` turns a failed config read into an empty contribution
and the md5 walk continues past it; but a config read error in
`catalog.py`'s `find_config_files` terminates the whole run via
`sys.exit(1)` (as does any error inside `md5_list_main`'s body). -/
theorem c3_amended :
    (∀ (fmt : String → Nat → Option String → String) (subdirs : List String)
        (count : String → Nat) (readDesc : String → ReadResult (Option String)),
      (DirectoryProcessor.process fmt subdirs count readDesc).length = subdirs.length) ∧
    (∀ xs ys : List (ReadResult (List Md5List.Md5Info)),
      Md5List.md5_find_config_files (xs ++ ReadResult.err :: ys) =
        Md5List.md5_find_config_files (xs ++ ys)) ∧
    (∀ (configs : List (String × ReadResult (Option String))) (p : String),
      (p, ReadResult.err) ∈ configs →
        Catalog.find_config_files configs = Except.error "sys.exit(1)") := by
  refine ⟨fun fmt subdirs count readDesc => ?_, fun xs ys => ?_, fun configs p hmem => ?_⟩
  · rw [DirectoryProcessor.process, List.length_map]
    exact (List.perm_insertionSort _ subdirs).length_eq
  · simp [Md5List.md5_find_config_files, Md5List.find_md5_in_config]
  · induction configs with
    | nil => simp at hmem
    | cons entry rest ih =>
      obtain ⟨path, r⟩ := entry
      cases r with
      | err => rfl
      | ok desc =>
        have hmem' : (p, ReadResult.err) ∈ rest := by
          rcases List.mem_cons.mp hmem with h | h
          · exact absurd h (by simp)
          · exact h
        simp only [Catalog.find_config_files, ih hmem']

/-- C3 witness: the amended statement at concrete inputs — two
subdirectories whose config reads both fail still yield two directory
entries; an md5 walk continues past a failed read; a catalog walk exits on
one. -/
theorem c3_witness :
    (DirectoryProcessor.process (fun n _ _ => n) ["b", "a"] (fun _ => 0)
        (fun _ => ReadResult.err)).length = (["b", "a"] : List String).length ∧
    Md5List.md5_find_config_files
        ([ReadResult.ok [⟨"a", "./a", "h1"⟩]] ++ ReadResult.err ::
          [ReadResult.ok [⟨"b", "./b", "h2"⟩]]) =
      Md5List.md5_find_config_files
        ([ReadResult.ok [⟨"a", "./a", "h1"⟩]] ++ [ReadResult.ok [⟨"b", "./b", "h2"⟩]]) ∧
    Catalog.find_config_files [("./a", ReadResult.err)] = Except.error "sys.exit(1)" :=
  ⟨c3_amended.1 (fun n _ _ => n) ["b", "a"] (fun _ => 0) (fun _ => ReadResult.err),
   c3_amended.2.1 [ReadResult.ok [⟨"a", "./a", "h1"⟩]] [ReadResult.ok [⟨"b", "./b", "h2"⟩]],
   c3_amended.2.2 [("./a", ReadResult.err)] "./a" (by simp)⟩

/-- C8: MD5 uniqueness is checked but not enforced.  With the default
options (`fail_on_duplicates` and `remove_duplicates` both false),
`md5_list_main` returns normally: no file is removed, the removed-files
list is empty, the catalog is written (sorted) in full; and the scan emits
one duplicate warning naming the colliding file for every record whose md5
was already seen. -/
theorem c8_md5_checked_not_enforced :
    (∀ (catalog : List (String × Md5List.Md5Info)) (pageExists : String → Bool),
      Md5List.md5_list_main catalog false false pageExists =
        Except.ok
          { catalog := catalog,
            written := catalog.insertionSort (fun a b => strLe a.1 b.1 = true),
            removed := [] }) ∧
    (∀ (infos : List Md5List.Md5Info) (i j : Nat) (hi : i < infos.length)
        (hj : j < infos.length), i < j → infos[i].md5 = infos[j].md5 →
      ∃ w ∈ Md5List.dup_warnings infos, w.2 = infos[j].path) := by
  constructor
  · intro catalog pageExists
    rw [Md5List.md5_list_main]
    simp
  · intro infos i j hi hj hij hmd5
    refine Md5List.dupWarnAux_mem infos [] j hj (Or.inr ?_)
    refine List.mem_map.mpr ⟨infos[i], ?_, hmd5⟩
    rw [List.mem_take_iff_getElem]
    exact ⟨i, by omega, rfl⟩

/-- C8 witness: a catalog with two records sharing an md5, run with the
default options: normal return with nothing removed, and a warning naming
the second file. -/
theorem c8_witness :
    Md5List.md5_list_main
        [("a.txt", ⟨"a.txt", "./x/a.txt", "h"⟩), ("b.txt", ⟨"b.txt", "./y/b.txt", "h"⟩)]
        false false (fun _ => false) =
      Except.ok
        { catalog := [("a.txt", ⟨"a.txt", "./x/a.txt", "h"⟩),
                      ("b.txt", ⟨"b.txt", "./y/b.txt", "h"⟩)],
          written := [("a.txt", ⟨"a.txt", "./x/a.txt", "h"⟩),
                      ("b.txt", ⟨"b.txt", "./y/b.txt", "h"⟩)].insertionSort
            (fun a b => strLe a.1 b.1 = true),
          removed := [] } ∧
    ∃ w ∈ Md5List.dup_warnings
        [⟨"a.txt", "./x/a.txt", "h"⟩, ⟨"b.txt", "./y/b.txt", "h"⟩],
      w.2 = ([⟨"a.txt", "./x/a.txt", "h"⟩,
        (⟨"b.txt", "./y/b.txt", "h"⟩ : Md5List.Md5Info)])[1].path :=
  ⟨c8_md5_checked_not_enforced.1 _ _,
   c8_md5_checked_not_enforced.2
     [⟨"a.txt", "./x/a.txt", "h"⟩, ⟨"b.txt", "./y/b.txt", "h"⟩]
     0 1 (by decide) (by decide) (by decide) (by decide)⟩

open EntryDetector PyDict in
/-- C1: config merge prefers existing non-empty values.  At directory
level, every key of the old config other than `files`/`subdirs` whose value
is non-empty keeps its old value in the merged config, and the freshly
scanned value is used exactly when the old value is absent or empty.  At
file level, the merged list is the scan's records each merged with its old
record (matched by filename), where every key with a non-empty old value
keeps the old value and the remaining keys keep the freshly scanned
value. -/
theorem c1_merge_prefers_existing (old new : Config) (dir : String)
    (hndm : (keys old.meta).Nodup) :
    (∀ k v, dictGet? old.meta k = some v → v.truthy = true →
      k ≠ "files" → k ≠ "subdirs" →
      dictGet? (merge_configs (some old) new dir).1.meta k = some v) ∧
    (∀ k, (dictGet? old.meta k = Option.none ∨
        ∃ v, dictGet? old.meta k = some v ∧ v.truthy = false) →
      dictGet? (merge_configs (some old) new dir).1.meta k =
        dictGet? new.meta k) ∧
    ((merge_configs (some old) new dir).1.files =
      new.files.map (mergeOneFile (old_files old.files))) ∧
    (∀ nf of, dictGet? (old_files old.files) (pyGet nf "filename") = some of →
      (keys of).Nodup →
      (∀ k v, dictGet? of k = some v → v.truthy = true →
        dictGet? (mergeOneFile (old_files old.files) nf) k = some v) ∧
      (∀ k, (dictGet? of k = Option.none ∨
          ∃ v, dictGet? of k = some v ∧ v.truthy = false) →
        dictGet? (mergeOneFile (old_files old.files) nf) k = dictGet? nf k)) := by
  refine ⟨fun k v hget htr hk1 hk2 => ?_, fun k h => ?_, rfl, fun nf of hlk hnd => ?_⟩
  · show dictGet? (dictUpdate metaCond new.meta old.meta) k = some v
    rw [dictGet?_dictUpdate, lastVal_of_get hndm hget,
      if_pos (show metaCond k v = true by simp [metaCond, htr, hk1, hk2])]
  · show dictGet? (dictUpdate metaCond new.meta old.meta) k = dictGet? new.meta k
    rw [dictGet?_dictUpdate]
    rcases h with h | ⟨v, hget, htr⟩
    · rw [lastVal_of_not_mem _ ((dictGet?_eq_none_iff _ _).mp h)]
    · rw [lastVal_of_get hndm hget,
        if_neg (show ¬ (metaCond k v = true) by simp [metaCond, htr])]
  · constructor
    · intro k v hget htr
      rw [mergeOneFile, hlk]
      exact fileMerge_preserved hnd hget htr
    · intro k h
      rw [mergeOneFile, hlk]
      exact fileMerge_fresh hnd h

open EntryDetector PyDict in
/-- C1 witness: `c1_merge_prefers_existing` at a concrete merge — the old
non-empty `description` wins, the old empty `curator` falls back to the
scanned value, and the old non-empty file `name` wins in the file
record. -/
theorem c1_witness :
    dictGet?
      (merge_configs
        (some { files := [[("filename", PyVal.str "a.txt"), ("md5", PyVal.str "h1"),
                           ("name", PyVal.str "kept")]],
                subdirs := [],
                meta := [("description", PyVal.str "old desc"),
                         ("curator", PyVal.str "")] })
        { files := [[("filename", PyVal.str "a.txt"), ("md5", PyVal.str "h2"),
                     ("name", PyVal.str "fresh")]],
          subdirs := [],
          meta := [("description", PyVal.str "new desc"),
                   ("curator", PyVal.str "new curator")] }
        ".").1.meta "description" = some (PyVal.str "old desc") ∧
    dictGet?
      (merge_configs
        (some { files := [[("filename", PyVal.str "a.txt"), ("md5", PyVal.str "h1"),
                           ("name", PyVal.str "kept")]],
                subdirs := [],
                meta := [("description", PyVal.str "old desc"),
                         ("curator", PyVal.str "")] })
        { files := [[("filename", PyVal.str "a.txt"), ("md5", PyVal.str "h2"),
                     ("name", PyVal.str "fresh")]],
          subdirs := [],
          meta := [("description", PyVal.str "new desc"),
                   ("curator", PyVal.str "new curator")] }
        ".").1.meta "curator" =
      dictGet? [("description", PyVal.str "new desc"),
                ("curator", PyVal.str "new curator")] "curator" :=
  ⟨(c1_merge_prefers_existing _ _ "." (by decide)).1 "description"
      (PyVal.str "old desc") (by decide) (by decide) (by decide) (by decide),
   (c1_merge_prefers_existing _ _ "." (by decide)).2.1 "curator"
      (Or.inr ⟨PyVal.str "", by decide, by decide⟩)⟩

open EntryDetector PyDict in
/-- C4: `merge_configs` classifies changes by filename and content hash: a
scanned record whose filename is unknown to the old config is recorded as
`Added` and kept as-is in the merged list; a filename known to the old
config with a differing md5 is recorded as `Modified`; a filename of the
old config missing from the scan is recorded as `Deleted` and no merged
record carries it. -/
theorem c4_change_classification (old new : Config) (dir : String)
    (hnd : ∀ f ∈ old.files, (keys f).Nodup) :
    (∀ nf ∈ new.files,
      dictGet? (old_files old.files) (pyGet nf "filename") = Option.none →
      Change.added dir (pyGet nf "filename") ∈ (merge_configs (some old) new dir).2 ∧
      nf ∈ (merge_configs (some old) new dir).1.files) ∧
    (∀ nf ∈ new.files, ∀ of,
      dictGet? (old_files old.files) (pyGet nf "filename") = some of →
      pyGet of "md5" ≠ pyGet nf "md5" →
      Change.modified dir (pyGet nf "filename") ∈ (merge_configs (some old) new dir).2) ∧
    (∀ k of, dictGet? (old_files old.files) k = some of →
      k ∉ new.files.map (fun f => pyGet f "filename") →
      Change.deleted dir k ∈ (merge_configs (some old) new dir).2 ∧
      ∀ mf ∈ (merge_configs (some old) new dir).1.files, pyGet mf "filename" ≠ k) := by
  refine ⟨fun nf hnf hlk => ⟨?_, ?_⟩, fun nf hnf of hlk hmd5 => ?_,
    fun k of hlk hk => ⟨?_, fun mf hmf => ?_⟩⟩
  · refine List.mem_append_left _ (List.mem_filterMap.mpr ⟨nf, hnf, ?_⟩)
    rw [fileChange, hlk]
  · refine List.mem_map.mpr ⟨nf, hnf, ?_⟩
    rw [mergeOneFile, hlk]
  · refine List.mem_append_left _ (List.mem_filterMap.mpr ⟨nf, hnf, ?_⟩)
    rw [fileChange, hlk]
    show (if pyGet of "md5" ≠ pyGet nf "md5" then
        some (Change.modified dir (pyGet nf "filename"))
      else Option.none) = some (Change.modified dir (pyGet nf "filename"))
    rw [if_pos hmd5]
  · refine List.mem_append_right _ (List.mem_filterMap.mpr
      ⟨(k, of), dictGet?_mem hlk, ?_⟩)
    rw [if_neg hk]
  · obtain ⟨nf, hnf, rfl⟩ := List.mem_map.mp hmf
    rw [pyGet_filename_mergeOneFile hnd nf]
    intro hc
    exact hk (hc ▸ List.mem_map.mpr ⟨nf, hnf, rfl⟩)

open EntryDetector PyDict in
/-- C4 witness: `c4_change_classification` at a concrete merge with one
added, one modified and one deleted file. -/
theorem c4_witness :
    Change.added "." (PyVal.str "new.txt") ∈
      (merge_configs
        (some { files := [[("filename", PyVal.str "mod.txt"), ("md5", PyVal.str "h1")],
                          [("filename", PyVal.str "gone.txt"), ("md5", PyVal.str "h2")]],
                subdirs := [], meta := [] })
        { files := [[("filename", PyVal.str "mod.txt"), ("md5", PyVal.str "h1x")],
                    [("filename", PyVal.str "new.txt"), ("md5", PyVal.str "h3")]],
          subdirs := [], meta := [] } ".").2 ∧
    Change.modified "." (PyVal.str "mod.txt") ∈
      (merge_configs
        (some { files := [[("filename", PyVal.str "mod.txt"), ("md5", PyVal.str "h1")],
                          [("filename", PyVal.str "gone.txt"), ("md5", PyVal.str "h2")]],
                subdirs := [], meta := [] })
        { files := [[("filename", PyVal.str "mod.txt"), ("md5", PyVal.str "h1x")],
                    [("filename", PyVal.str "new.txt"), ("md5", PyVal.str "h3")]],
          subdirs := [], meta := [] } ".").2 ∧
    Change.deleted "." (PyVal.str "gone.txt") ∈
      (merge_configs
        (some { files := [[("filename", PyVal.str "mod.txt"), ("md5", PyVal.str "h1")],
                          [("filename", PyVal.str "gone.txt"), ("md5", PyVal.str "h2")]],
                subdirs := [], meta := [] })
        { files := [[("filename", PyVal.str "mod.txt"), ("md5", PyVal.str "h1x")],
                    [("filename", PyVal.str "new.txt"), ("md5", PyVal.str "h3")]],
          subdirs := [], meta := [] } ".").2 :=
  ⟨((c4_change_classification _ _ "." (by decide)).1
      [("filename", PyVal.str "new.txt"), ("md5", PyVal.str "h3")]
      (by decide) (by decide)).1,
   (c4_change_classification _ _ "." (by decide)).2.1
      [("filename", PyVal.str "mod.txt"), ("md5", PyVal.str "h1x")]
      (by decide) [("filename", PyVal.str "mod.txt"), ("md5", PyVal.str "h1")]
      (by decide) (by decide),
   ((c4_change_classification _ _ "." (by decide)).2.2 (PyVal.str "gone.txt")
      [("filename", PyVal.str "gone.txt"), ("md5", PyVal.str "h2")]
      (by decide) (by decide)).1⟩

open EntryDetector PyDict in
/-- C9: every config produced for a directory (fresh scan merged with any
old config) lists as `subdirs` only names of actual child directories of
the scanned listing — directories whose name does not start with `.`, that
are not ignored, and whose name does not contain `workspace` — and the
merge step takes the `subdirs` list from the fresh scan, never
reintroducing names from the old config. -/
theorem c9_subdirs_reference_children (ignored : String → Bool) (dir : String)
    (listing : List FSItem) (old : Option Config) :
    ((merge_configs old (detect_directory ignored dir listing) dir).1.subdirs =
      (detect_directory ignored dir listing).subdirs) ∧
    (∀ s ∈ (merge_configs old (detect_directory ignored dir listing) dir).1.subdirs,
      ∃ item ∈ listing, item.name = s ∧ item.isDir = true ∧
        startsSeq ".".data s.data = false ∧ ignored (joinPath dir s) = false ∧
        hasWorkspace s = false) := by
  have hsub : (merge_configs old (detect_directory ignored dir listing) dir).1.subdirs =
      (detect_directory ignored dir listing).subdirs := by
    cases old with
    | none => rfl
    | some oc => rfl
  refine ⟨hsub, fun s hs => ?_⟩
  rw [hsub] at hs
  obtain ⟨item, hitem, heq⟩ := List.mem_filterMap.mp hs
  have hcond : (item.isDir && !startsSeq ".".data item.name.data &&
      !ignored (joinPath dir item.name) && !hasWorkspace item.name) = true := by
    by_contra hc
    rw [if_neg (by simpa using hc)] at heq
    exact Option.noConfusion heq
  have hname : item.name = s := by
    rw [if_pos (by simpa using hcond)] at heq
    injection heq
  refine ⟨item, (List.perm_insertionSort _ listing).mem_iff.mp hitem, hname, ?_⟩
  simp only [Bool.and_eq_true, Bool.not_eq_true'] at hcond
  rw [← hname]
  exact ⟨hcond.1.1.1, hcond.1.1.2, hcond.1.2, hcond.2⟩

open EntryDetector PyDict in
/-- C9 witness: `c9_subdirs_reference_children` on a concrete listing with
a regular child directory, a hidden directory, a workspace directory and a
plain file, merged over an old config listing a stale subdir. -/
theorem c9_witness :
    ((merge_configs (some { files := [], subdirs := ["stale"], meta := [] })
        (detect_directory (fun _ => false) "."
          [⟨"sub", true, 0, ""⟩, ⟨".hidden", true, 0, ""⟩,
           ⟨"a_workspace_dir", true, 0, ""⟩, ⟨"f.txt", false, 3, "h"⟩])
        ".").1.subdirs =
      (detect_directory (fun _ => false) "."
        [⟨"sub", true, 0, ""⟩, ⟨".hidden", true, 0, ""⟩,
         ⟨"a_workspace_dir", true, 0, ""⟩, ⟨"f.txt", false, 3, "h"⟩]).subdirs) ∧
    (∃ item ∈ [(⟨"sub", true, 0, ""⟩ : FSItem), ⟨".hidden", true, 0, ""⟩,
        ⟨"a_workspace_dir", true, 0, ""⟩, ⟨"f.txt", false, 3, "h"⟩],
      item.name = "sub" ∧ item.isDir = true ∧
        startsSeq ".".data "sub".data = false ∧
        (fun _ => false) (joinPath "." "sub") = false ∧
        hasWorkspace "sub" = false) :=
  ⟨(c9_subdirs_reference_children (fun _ => false) "."
      [⟨"sub", true, 0, ""⟩, ⟨".hidden", true, 0, ""⟩,
       ⟨"a_workspace_dir", true, 0, ""⟩, ⟨"f.txt", false, 3, "h"⟩]
      (some { files := [], subdirs := ["stale"], meta := [] })).1,
   (c9_subdirs_reference_children (fun _ => false) "."
      [⟨"sub", true, 0, ""⟩, ⟨".hidden", true, 0, ""⟩,
       ⟨"a_workspace_dir", true, 0, ""⟩, ⟨"f.txt", false, 3, "h"⟩]
      (some { files := [], subdirs := ["stale"], meta := [] })).2 "sub" (by decide)⟩

open EntryDetector PyDict in
/-- C10: when a file's content changed (old md5 differs from the newly
computed md5, both present, the old one non-empty), the merged record keeps
the old md5 and — when non-empty — the old size, because non-empty old
values win for every key; the file is reported `Modified`, the saved
config no longer matches the file on disk, and merging the saved result
with the same unchanged scan reports the very same file `Modified`
again. -/
theorem c10_stale_md5_remodified (old new : Config) (dir : String)
    (nf of : FileDict) (v1 s : PyVal)
    (hnf : nf ∈ new.files)
    (hlk : dictGet? (old_files old.files) (pyGet nf "filename") = some of)
    (hndold : ∀ f ∈ old.files, (keys f).Nodup)
    (hndof : (keys of).Nodup)
    (hnames : (new.files.map (fun f => pyGet f "filename")).Nodup)
    (h1 : dictGet? of "md5" = some v1) (htr1 : v1.truthy = true)
    (hne : v1 ≠ pyGet nf "md5")
    (hs : dictGet? of "size" = some s) (htrs : s.truthy = true) :
    dictGet? (mergeOneFile (old_files old.files) nf) "md5" = some v1 ∧
    dictGet? (mergeOneFile (old_files old.files) nf) "size" = some s ∧
    Change.modified dir (pyGet nf "filename") ∈ (merge_configs (some old) new dir).2 ∧
    Change.modified dir (pyGet nf "filename") ∈
      (merge_configs (some (merge_configs (some old) new dir).1) new dir).2 := by
  have ha : dictGet? (mergeOneFile (old_files old.files) nf) "md5" = some v1 := by
    rw [mergeOneFile, hlk]
    exact fileMerge_preserved hndof h1 htr1
  have hb : dictGet? (mergeOneFile (old_files old.files) nf) "size" = some s := by
    rw [mergeOneFile, hlk]
    exact fileMerge_preserved hndof hs htrs
  have hofmd5 : pyGet of "md5" = v1 := by rw [pyGet, h1]; rfl
  refine ⟨ha, hb, ?_, ?_⟩
  · refine List.mem_append_left _ (List.mem_filterMap.mpr ⟨nf, hnf, ?_⟩)
    rw [fileChange, hlk]
    show (if pyGet of "md5" ≠ pyGet nf "md5" then
        some (Change.modified dir (pyGet nf "filename"))
      else Option.none) = some (Change.modified dir (pyGet nf "filename"))
    rw [if_pos (hofmd5 ▸ hne)]
  · have hmfiles : (merge_configs (some old) new dir).1.files =
        new.files.map (mergeOneFile (old_files old.files)) := rfl
    have hmnames : ((merge_configs (some old) new dir).1.files).map
        (fun f => pyGet f "filename") = new.files.map (fun f => pyGet f "filename") :=
      merged_filenames hndold
    have hndm : (((merge_configs (some old) new dir).1.files).map
        (fun f => pyGet f "filename")).Nodup := by
      rw [hmnames]
      exact hnames
    have hgmem : mergeOneFile (old_files old.files) nf ∈
        (merge_configs (some old) new dir).1.files := by
      rw [hmfiles]
      exact List.mem_map.mpr ⟨nf, hnf, rfl⟩
    have hlk2 : dictGet? (old_files ((merge_configs (some old) new dir).1.files))
        (pyGet nf "filename") = some (mergeOneFile (old_files old.files) nf) := by
      have := old_files_get_of_nodup hndm hgmem
      rwa [pyGet_filename_mergeOneFile hndold nf] at this
    refine List.mem_append_left _ (List.mem_filterMap.mpr ⟨nf, hnf, ?_⟩)
    rw [fileChange, hlk2]
    show (if pyGet (mergeOneFile (old_files old.files) nf) "md5" ≠ pyGet nf "md5" then
        some (Change.modified dir (pyGet nf "filename"))
      else Option.none) = some (Change.modified dir (pyGet nf "filename"))
    have : pyGet (mergeOneFile (old_files old.files) nf) "md5" = v1 := by
      rw [pyGet, ha]
      rfl
    rw [if_pos (this ▸ hne)]

open EntryDetector PyDict in
/-- C10 witness: a concrete changed file — the merged record keeps the old
md5 `h1` and old size, the first merge reports it `Modified`, and merging
the merged config with the same scan reports it `Modified` again. -/
theorem c10_witness :
    dictGet? (mergeOneFile
      (old_files [[("filename", PyVal.str "a.txt"), ("md5", PyVal.str "h1"),
                   ("size", PyVal.int 7)]])
      [("filename", PyVal.str "a.txt"), ("md5", PyVal.str "h2"),
       ("size", PyVal.int 9)]) "md5" = some (PyVal.str "h1") ∧
    dictGet? (mergeOneFile
      (old_files [[("filename", PyVal.str "a.txt"), ("md5", PyVal.str "h1"),
                   ("size", PyVal.int 7)]])
      [("filename", PyVal.str "a.txt"), ("md5", PyVal.str "h2"),
       ("size", PyVal.int 9)]) "size" = some (PyVal.int 7) ∧
    Change.modified "." (PyVal.str "a.txt") ∈
      (merge_configs
        (some { files := [[("filename", PyVal.str "a.txt"), ("md5", PyVal.str "h1"),
                           ("size", PyVal.int 7)]],
                subdirs := [], meta := [] })
        { files := [[("filename", PyVal.str "a.txt"), ("md5", PyVal.str "h2"),
                     ("size", PyVal.int 9)]],
          subdirs := [], meta := [] } ".").2 ∧
    Change.modified "." (PyVal.str "a.txt") ∈
      (merge_configs
        (some (merge_configs
          (some { files := [[("filename", PyVal.str "a.txt"), ("md5", PyVal.str "h1"),
                             ("size", PyVal.int 7)]],
                  subdirs := [], meta := [] })
          { files := [[("filename", PyVal.str "a.txt"), ("md5", PyVal.str "h2"),
                       ("size", PyVal.int 9)]],
            subdirs := [], meta := [] } ".").1)
        { files := [[("filename", PyVal.str "a.txt"), ("md5", PyVal.str "h2"),
                     ("size", PyVal.int 9)]],
          subdirs := [], meta := [] } ".").2 := by
  have h := c10_stale_md5_remodified
    { files := [[("filename", PyVal.str "a.txt"), ("md5", PyVal.str "h1"),
                 ("size", PyVal.int 7)]],
      subdirs := [], meta := [] }
    { files := [[("filename", PyVal.str "a.txt"), ("md5", PyVal.str "h2"),
                 ("size", PyVal.int 9)]],
      subdirs := [], meta := [] }
    "."
    [("filename", PyVal.str "a.txt"), ("md5", PyVal.str "h2"), ("size", PyVal.int 9)]
    [("filename", PyVal.str "a.txt"), ("md5", PyVal.str "h1"), ("size", PyVal.int 7)]
    (PyVal.str "h1") (PyVal.int 7)
    (by decide) (by decide) (by decide) (by decide) (by decide)
    (by decide) (by decide) (by decide) (by decide) (by decide)
  exact h

open EntryDetector PyDict in
/-- C5: config merge is idempotent when the scan result is unchanged:
merging the merged config with the same scan yields the same config.
The duplicate-free-keys hypotheses state that the configs are images of
Python dicts, whose keys are necessarily distinct. -/
theorem c5_merge_idempotent (c : Option Config) (n : Config) (dir : String)
    (hndmeta : (keys n.meta).Nodup)
    (hndfiles : ∀ f ∈ n.files, (keys f).Nodup)
    (hnames : (n.files.map (fun f => pyGet f "filename")).Nodup)
    (hold : ∀ oc, c = some oc → ∀ f ∈ oc.files, (keys f).Nodup) :
    (merge_configs (some (merge_configs c n dir).1) n dir).1 =
      (merge_configs c n dir).1 := by
  cases c with
  | none =>
    have hfiles : n.files.map (mergeOneFile (old_files n.files)) = n.files := by
      have hpt : ∀ f ∈ n.files, mergeOneFile (old_files n.files) f = f := by
        intro f hf
        rw [mergeOneFile, old_files_get_of_nodup hnames hf]
        exact dictUpdate_self (hndfiles f hf) (fun kv hkv => hkv)
      calc n.files.map (mergeOneFile (old_files n.files))
          = n.files.map id := List.map_congr_left hpt
        _ = n.files := List.map_id _
    have hmeta : dictUpdate metaCond n.meta n.meta = n.meta :=
      dictUpdate_self hndmeta (fun kv hkv => hkv)
    show (⟨n.files.map (mergeOneFile (old_files n.files)), n.subdirs,
        dictUpdate metaCond n.meta n.meta⟩ : Config) =
      ⟨n.files, n.subdirs, n.meta⟩
    rw [Config.mk.injEq]
    exact ⟨hfiles, rfl, hmeta⟩
  | some oc =>
    have holdoc : ∀ f ∈ oc.files, (keys f).Nodup := hold oc rfl
    have hmetai : dictUpdate metaCond n.meta (dictUpdate metaCond n.meta oc.meta) =
        dictUpdate metaCond n.meta oc.meta :=
      dictUpdate_idem metaCond oc.meta hndmeta
    have hpres : ∀ f ∈ n.files,
        pyGet (mergeOneFile (old_files oc.files) f) "filename" = pyGet f "filename" :=
      fun f _ => pyGet_filename_mergeOneFile holdoc f
    have hmn : (n.files.map (mergeOneFile (old_files oc.files))).map
        (fun f => pyGet f "filename") = n.files.map (fun f => pyGet f "filename") := by
      rw [List.map_map]
      exact List.map_congr_left (fun f hf => hpres f hf)
    have hndm : ((n.files.map (mergeOneFile (old_files oc.files))).map
        (fun f => pyGet f "filename")).Nodup := by
      rw [hmn]
      exact hnames
    have hfilesi : n.files.map
        (mergeOneFile (old_files (n.files.map (mergeOneFile (old_files oc.files))))) =
        n.files.map (mergeOneFile (old_files oc.files)) := by
      apply List.map_congr_left
      intro f hf
      have hmem : mergeOneFile (old_files oc.files) f ∈
          n.files.map (mergeOneFile (old_files oc.files)) :=
        List.mem_map.mpr ⟨f, hf, rfl⟩
      have hlk2 : dictGet? (old_files (n.files.map (mergeOneFile (old_files oc.files))))
          (pyGet f "filename") = some (mergeOneFile (old_files oc.files) f) := by
        have h := old_files_get_of_nodup hndm hmem
        rwa [hpres f hf] at h
      rw [mergeOneFile, hlk2]
      cases hlk0 : dictGet? (old_files oc.files) (pyGet f "filename") with
      | none =>
        have hgf : mergeOneFile (old_files oc.files) f = f := by
          rw [mergeOneFile, hlk0]
        rw [hgf]
        exact dictUpdate_self (hndfiles f hf) (fun kv hkv => hkv)
      | some of =>
        have hgf : mergeOneFile (old_files oc.files) f = dictUpdate fileCond f of := by
          rw [mergeOneFile, hlk0]
        rw [hgf]
        exact dictUpdate_idem fileCond of (hndfiles f hf)
    show (⟨n.files.map
        (mergeOneFile (old_files (n.files.map (mergeOneFile (old_files oc.files))))),
        n.subdirs,
        dictUpdate metaCond n.meta (dictUpdate metaCond n.meta oc.meta)⟩ : Config) =
      ⟨n.files.map (mergeOneFile (old_files oc.files)), n.subdirs,
        dictUpdate metaCond n.meta oc.meta⟩
    rw [Config.mk.injEq]
    exact ⟨hfilesi, rfl, hmetai⟩

open EntryDetector PyDict in
/-- C5 witness: `c5_merge_idempotent` at a concrete old config and scan —
re-merging the merged config with the same scan changes nothing. -/
theorem c5_witness :
    (merge_configs
      (some (merge_configs
        (some { files := [[("filename", PyVal.str "a.txt"), ("md5", PyVal.str "h1"),
                           ("name", PyVal.str "kept")]],
                subdirs := ["olddir"],
                meta := [("description", PyVal.str "old")] })
        { files := [[("filename", PyVal.str "a.txt"), ("md5", PyVal.str "h2")],
                    [("filename", PyVal.str "b.txt"), ("md5", PyVal.str "h3")]],
          subdirs := ["sub"],
          meta := [("description", PyVal.str ""), ("curator", PyVal.str "x")] }
        ".").1)
      { files := [[("filename", PyVal.str "a.txt"), ("md5", PyVal.str "h2")],
                  [("filename", PyVal.str "b.txt"), ("md5", PyVal.str "h3")]],
        subdirs := ["sub"],
        meta := [("description", PyVal.str ""), ("curator", PyVal.str "x")] }
      ".").1 =
    (merge_configs
      (some { files := [[("filename", PyVal.str "a.txt"), ("md5", PyVal.str "h1"),
                         ("name", PyVal.str "kept")]],
              subdirs := ["olddir"],
              meta := [("description", PyVal.str "old")] })
      { files := [[("filename", PyVal.str "a.txt"), ("md5", PyVal.str "h2")],
                  [("filename", PyVal.str "b.txt"), ("md5", PyVal.str "h3")]],
        subdirs := ["sub"],
        meta := [("description", PyVal.str ""), ("curator", PyVal.str "x")] }
      ".").1 :=
  c5_merge_idempotent
    (some { files := [[("filename", PyVal.str "a.txt"), ("md5", PyVal.str "h1"),
                       ("name", PyVal.str "kept")]],
            subdirs := ["olddir"],
            meta := [("description", PyVal.str "old")] })
    { files := [[("filename", PyVal.str "a.txt"), ("md5", PyVal.str "h2")],
                [("filename", PyVal.str "b.txt"), ("md5", PyVal.str "h3")]],
      subdirs := ["sub"],
      meta := [("description", PyVal.str ""), ("curator", PyVal.str "x")] }
    "." (by decide) (by decide) (by decide)
    (fun oc hoc => by
      injection hoc with h
      rw [← h]
      decide)
